import Mathlib

/-!
Verification of the directory-synchronization engine of `file_syncer.py`
(repository Shift-Happens/ToolScripts).

The Python engine is shallowly embedded as executable Lean functions:

* file-tree snapshots (`EntryIndex`) are association lists from
  forward-slash relative paths to `FileInfo` records, modelling the
  dictionaries built by `synchronize()` from `_list_files` output;
* file content is abstracted by the `checksum` field of `FileInfo`: the
  string `_calculate_checksum` would return for that file (the empty
  string models an unobtainable checksum, as in the Python code);
* the executor (`_create_directory` / `_copy_file` / `_delete_path`) is
  modelled for the local/local backend pair, keyed by relative path;
  full paths in the code are the root-joined relative paths, so the key
  spaces are in bijection.  `shutil.copy2` copies content and metadata,
  hence a successful copy installs the source `FileInfo` verbatim;
* `int(time.time())` during one run is modelled by the single
  timestamp `now` of the run's `World`;
* operation failures (the caught exceptions of the executor) are driven
  by an `Oracle`; a failed operation leaves the tree unchanged and
  increments the `errors` counter, as the Python handlers do.
-/

set_option autoImplicit false

namespace ToolScripts

/-! ## Shell-glob matching, modelling Python's `fnmatch` module -/

/-- Scans for the closing bracket of a glob character class, returning the
class members and the remainder of the pattern, or `none` when the class
is unterminated. -/
def scanClass : List Char → Option (List Char × List Char)
  | [] => none
  | ']' :: rest => some ([], rest)
  | c :: rest =>
    match scanClass rest with
    | some (cls, r) => some (c :: cls, r)
    | none => none

def parseClassBody (l : List Char) : Option (List Char × List Char) :=
  match l with
  | ']' :: rest => (scanClass rest).map (fun p => (']' :: p.1, p.2))
  | _ => scanClass l

def parseClass (l : List Char) : Option (Bool × List Char × List Char) :=
  match l with
  | '!' :: rest => (parseClassBody rest).map (fun p => (true, p.1, p.2))
  | _ => (parseClassBody l).map (fun p => (false, p.1, p.2))

inductive GlobTok where
  | star
  | anyChar
  | charClass (negated : Bool) (members : List Char)
  | lit (c : Char)
deriving DecidableEq, Repr

/-- Pattern compiler with explicit fuel.  Every step consumes at least
one pattern character (`parseClass_length`), so fuel equal to the
pattern length never runs out; the fuel only makes the recursion
structural. -/
def tokenizeAux : Nat → List Char → List GlobTok
  | 0, _ => []
  | _ + 1, [] => []
  | fuel + 1, '*' :: rest => .star :: tokenizeAux fuel rest
  | fuel + 1, '?' :: rest => .anyChar :: tokenizeAux fuel rest
  | fuel + 1, '[' :: rest =>
    match parseClass rest with
    | some (neg, cls, r) => .charClass neg cls :: tokenizeAux fuel r
    | none => .lit '[' :: tokenizeAux fuel rest
  | fuel + 1, c :: rest => .lit c :: tokenizeAux fuel rest

/-- Compiles a glob pattern into tokens, following `fnmatch.translate`:
`*` and `?` are wildcards, `[...]` is a character class, an unterminated
`[` is a literal bracket, every other character matches itself. -/
def tokenize (l : List Char) : List GlobTok :=
  tokenizeAux l.length l

/-- Membership of a character in a glob character class, with `a-b`
ranges interpreted by code point as in the regex `fnmatch` compiles to. -/
def matchClass : List Char → Char → Bool
  | a :: '-' :: b :: rest, c => (a ≤ c && c ≤ b) || matchClass rest c
  | a :: rest, c => (a == c) || matchClass rest c
  | [], _ => false

/-- Matches a token sequence against a character sequence.  A `*`
(compiled to `.*` by `fnmatch.translate`) matches when some suffix of
the input matches the remaining tokens. -/
def tokMatch : List GlobTok → List Char → Bool
  | [], s => s.isEmpty
  | .star :: ts, s => s.tails.any (fun s' => tokMatch ts s')
  | .anyChar :: ts, s =>
    match s with
    | [] => false
    | _ :: s' => tokMatch ts s'
  | .charClass neg cls :: ts, s =>
    match s with
    | [] => false
    | c :: s' => (matchClass cls c != neg) && tokMatch ts s'
  | .lit a :: ts, s =>
    match s with
    | [] => false
    | c :: s' => (a == c) && tokMatch ts s'

/-- Shell-glob match of `name` against `pattern`, modelling
`fnmatch.fnmatch` on a case-sensitive (POSIX) platform. -/
def fnmatch (name pattern : String) : Bool :=
  tokMatch (tokenize pattern.data) name.data

/-- Characters after the last slash: the accumulator restarts at every
`/`. -/
def basenameChars (l : List Char) : List Char :=
  l.foldl (fun acc c => if c = '/' then [] else acc ++ [c]) []

/-- Final path component, modelling `os.path.basename` on forward-slash
paths. -/
def basename (p : String) : String :=
  String.mk (basenameChars p.data)

/-- Characters strictly before the last slash (empty when there is no
slash). -/
def dirnameChars : List Char → List Char
  | [] => []
  | c :: rest => if '/' ∈ rest then c :: dirnameChars rest else []

/-- Leading path components, modelling `os.path.dirname` on forward-slash
relative paths (empty when the path has a single component). -/
def dirname (p : String) : String :=
  String.mk (dirnameChars p.data)

/-! ## Data model -/

/-- Metadata of one scanned file or directory, as produced by
`_list_files`: the dictionary `{"path": ..., "size": ..., "mtime": ...,
"is_dir": ...}` keyed by relative path.  The extra `checksum` field
abstracts the file's content: it is the string `_calculate_checksum`
returns for this file (empty when the checksum is unobtainable). -/
structure FileInfo where
  size : Nat
  mtime : Int
  isDir : Bool
  checksum : String
deriving DecidableEq, Repr

/-- One tree snapshot: relative path → metadata, modelling the
`source_files` / `dest_files` dictionaries.  Keys are unique in
dictionaries; theorems that need uniqueness carry a `Nodup` hypothesis. -/
abbrev EntryIndex := List (String × FileInfo)

/-- First-match lookup in an `EntryIndex`, modelling dictionary access. -/
def lookupKey (idx : EntryIndex) (k : String) : Option FileInfo :=
  match idx with
  | [] => none
  | e :: rest => if e.1 = k then some e.2 else lookupKey rest k

/-- Synchronization mode (`SyncMode` in the code). -/
inductive SyncMode where
  | oneWay
  | twoWay
  | mirror
deriving DecidableEq, Repr

/-- Action classification (`FileAction` in the code). -/
inductive FileAction where
  | copy
  | update
  | delete
  | conflict
  | skip
deriving DecidableEq, Repr

/-- Per-run configuration, the recognized option fields of `FileSyncer`
together with the state of its console: `richProgress` is true exactly
when the progress-bar transfer branch of `_copy_file` is taken, i.e. the
rich library imported and a console was created — `quiet` unset
(lines 193 and 571). -/
structure SyncOptions where
  syncMode : SyncMode
  excludePatterns : List String
  includePatterns : List String
  useTimestamp : Bool
  useChecksum : Bool
  backup : Bool
  force : Bool
  dryRun : Bool
  richProgress : Bool
deriving Repr

/-- Options produced by `main()` when no command-line flag is given:
`argparse` defaults every `store_true` flag (timestamp, checksum, backup,
force, dry-run, quiet) to `False` and the sync mode to `one-way`; with
the rich library importable and quiet off, the progress-bar transfer
branch is active. -/
def cliDefaultOptions : SyncOptions :=
  { syncMode := .oneWay
    excludePatterns := []
    includePatterns := []
    useTimestamp := false
    useChecksum := false
    backup := false
    force := false
    dryRun := false
    richProgress := true }

/-! ## Filter engine: `_should_include_file` -/

/-- Pattern filter of `_should_include_file`: excludes are checked first
against the full relative path and the base name; if include patterns are
present the path must match at least one; otherwise it is included. -/
def shouldIncludeFile (o : SyncOptions) (filepath : String) : Bool :=
  let filename := basename filepath
  if o.excludePatterns.any (fun pat => fnmatch filepath pat || fnmatch filename pat) then
    false
  else if o.includePatterns ≠ [] then
    o.includePatterns.any (fun pat => fnmatch filepath pat || fnmatch filename pat)
  else
    true

/-! ## Comparator: `_compare_files` -/

/-- Checksum the comparator obtains for an optional destination entry:
the entry's checksum when the file exists, empty otherwise (an exception
inside `_calculate_checksum` yields `""`). -/
def checksumOf (f : Option FileInfo) : String :=
  match f with
  | some i => i.checksum
  | none => ""

/-- Classification of one source file against an optional destination
entry, modelling `_compare_files`.  The checksums are passed explicitly,
as the code computes them from the two full paths. -/
def compareFiles (o : SyncOptions) (sourceFile : FileInfo) (destFile : Option FileInfo)
    (sourceChecksum destChecksum : String) : FileAction :=
  match destFile with
  | none => .copy
  | some d =>
    if sourceFile.size ≠ d.size then .update
    else if o.useTimestamp ∧ ¬o.useChecksum ∧ d.mtime + 2 < sourceFile.mtime then .update
    else if o.useChecksum ∧ sourceChecksum ≠ "" ∧ destChecksum ≠ "" ∧
        sourceChecksum ≠ destChecksum then .update
    else .skip

/-! ## Conflict detector and resolver -/

/-- Conflict detection of `_detect_conflicts`: only in two-way mode, for
every path present in both indices and a file on both sides, a checksum
difference (when `useChecksum`) or an mtime gap above 2 seconds flags a
conflict. -/
def detectConflicts (o : SyncOptions) (sourceFiles destFiles : EntryIndex) : List String :=
  if o.syncMode ≠ SyncMode.twoWay then []
  else
    sourceFiles.filterMap (fun e =>
      match lookupKey destFiles e.1 with
      | none => none
      | some d =>
        if e.2.isDir ∨ d.isDir then none
        else if o.useChecksum then
          if e.2.checksum ≠ d.checksum then some e.1 else none
        else if 2 < (e.2.mtime - d.mtime).natAbs then some e.1 else none)

/-- Conflict resolution of `_resolve_conflict`: `force` makes the source
win; otherwise the strictly newer modification time wins, ties and
destination-newer yield skip. -/
def resolveConflict (o : SyncOptions) (sourceFile destFile : FileInfo) : FileAction :=
  if o.force then .update
  else if destFile.mtime < sourceFile.mtime then .update
  else .skip

/-! ## Stats, planner and executor -/

/-- Counters of `self.stats` (the timing fields are irrelevant to the
claims and omitted). -/
structure Stats where
  copied : Nat := 0
  updated : Nat := 0
  deleted : Nat := 0
  skipped : Nat := 0
  conflicts : Nat := 0
  errors : Nat := 0
  bytesTransferred : Nat := 0
deriving DecidableEq, Repr

/-- Action lists accumulated by the planning loop of `synchronize()`:
`to_copy` / `to_update` hold (relative path, is_dir) pairs, `skipped`
holds relative paths, and `conflictCount` records the increments of
`stats["conflicts"]` performed while planning. -/
structure Plan where
  toCopy : List (String × Bool) := []
  toUpdate : List (String × Bool) := []
  skipped : List String := []
  conflictCount : Nat := 0
deriving DecidableEq, Repr

/-- Routing of a classification into the copy/update/skip lists
(lines 939-944 of the code). -/
def routePlan (acc : Plan) (rel : String) (a : FileAction) : Plan :=
  match a with
  | .copy => {acc with toCopy := acc.toCopy ++ [(rel, false)]}
  | .update => {acc with toUpdate := acc.toUpdate ++ [(rel, false)]}
  | _ => {acc with skipped := acc.skipped ++ [rel]}

/-- One iteration of the planning loop (lines 916-944): a directory is
copied only when absent from the destination; a path in the conflict
list is settled by the resolver, and only a skip resolution counts one
conflict; any other file is classified by the comparator.  (A conflict
path always has a destination entry, by construction of
`detectConflicts`, so the `none` branch uses the comparator.) -/
def planStep (o : SyncOptions) (destFiles : EntryIndex) (conflicts : List String)
    (acc : Plan) (e : String × FileInfo) : Plan :=
  match lookupKey destFiles e.1 with
  | none =>
    if e.2.isDir then {acc with toCopy := acc.toCopy ++ [(e.1, true)]}
    else routePlan acc e.1 (compareFiles o e.2 none e.2.checksum (checksumOf none))
  | some d =>
    if e.2.isDir then acc
    else if e.1 ∈ conflicts then
      match resolveConflict o e.2 d with
      | .skip =>
        {acc with skipped := acc.skipped ++ [e.1],
                  conflictCount := acc.conflictCount + 1}
      | a => routePlan acc e.1 a
    else routePlan acc e.1 (compareFiles o e.2 (some d) e.2.checksum d.checksum)

/-- The planning loop over the filtered source index. -/
def buildPlanAux (o : SyncOptions) (destFiles : EntryIndex) (conflicts : List String) :
    Plan → EntryIndex → Plan
  | acc, [] => acc
  | acc, e :: rest =>
    buildPlanAux o destFiles conflicts (planStep o destFiles conflicts acc e) rest

/-- The plan accumulated by the loop, starting from empty lists. -/
def buildPlan (o : SyncOptions) (sourceFiles destFiles : EntryIndex)
    (conflicts : List String) : Plan :=
  buildPlanAux o destFiles conflicts {} sourceFiles

/-- Mirror-mode deletions (lines 947-951): destination paths absent from
the filtered source index that themselves pass the include/exclude
filter. -/
def mirrorDeletes (o : SyncOptions) (sourceFiles destFiles : EntryIndex) :
    List (String × Bool) :=
  if o.syncMode = SyncMode.mirror then
    destFiles.filterMap (fun e =>
      if lookupKey sourceFiles e.1 = none ∧ shouldIncludeFile o e.1 then
        some (e.1, e.2.isDir)
      else none)
  else []

/-- Predicate: a source entry is a detected conflict that the resolver
settles as Skip — the only case in which the planning loop increments
`stats["conflicts"]`. -/
def conflictSkipP (o : SyncOptions) (destFiles : EntryIndex) (conflicts : List String)
    (e : String × FileInfo) : Bool :=
  !e.2.isDir && decide (e.1 ∈ conflicts) &&
    (match lookupKey destFiles e.1 with
     | some d => decide (resolveConflict o e.2 d = FileAction.skip)
     | none => false)

/-- Success oracle for the executor's fallible operations at a given
relative path (the exceptions caught inside `_create_directory`,
`_copy_file` and `_delete_path`). -/
structure Oracle where
  mkdirOk : String → Bool
  copyOk : String → Bool
  deleteOk : String → Bool

/-- The oracle of a run in which no operation fails. -/
def allOk : Oracle := ⟨fun _ => true, fun _ => true, fun _ => true⟩

/-- Installs (or overwrites) the entry at a key, modelling the effect of
a filesystem write on a later scan of the tree. -/
def insertEntry (idx : EntryIndex) (k : String) (v : FileInfo) : EntryIndex :=
  if (lookupKey idx k).isSome then
    idx.map (fun e => if e.1 = k then (k, v) else e)
  else idx ++ [(k, v)]

/-- Removes the entry at a key (`os.unlink`). -/
def removeEntry (idx : EntryIndex) (k : String) : EntryIndex :=
  idx.filter (fun e => e.1 ≠ k)

/-- Entry a freshly created directory presents to a later scan. -/
def mkDirInfo (now : Nat) : FileInfo := ⟨0, (now : Int), true, ""⟩

/-- Backup path `dest + ".bak." + int(time.time())` used by `_copy_file`
and `_delete_path`. -/
def bakKey (rel : String) (now : Nat) : String := rel ++ ".bak." ++ toString now

/-- Creation of the missing parent directory before a transfer
(lines 550-553; `makedirs` also creates deeper ancestors, which for a
plan produced from a scanned tree are separate plan entries). -/
def ensureParentDir (now : Nat) (dst : EntryIndex) (rel : String) : EntryIndex :=
  if dirname rel ≠ "" ∧ lookupKey dst (dirname rel) = none then
    insertEntry dst (dirname rel) (mkDirInfo now)
  else dst

/-- Backup of an existing destination before overwrite (lines 556-567):
the old entry is duplicated at `dest + ".bak." + now`. -/
def backupIfNeeded (o : SyncOptions) (now : Nat) (dst : EntryIndex) (rel : String) :
    EntryIndex :=
  match lookupKey dst rel with
  | some old => if o.backup then insertEntry dst (bakKey rel now) old else dst
  | none => dst

/-- Entry a later scan sees at the destination after a transfer of the
source file `sf`: the progress-bar branch (lines 590-597) writes the
bytes with a manual chunk loop, so content and size are the source's but
the written file's mtime is the time of the transfer; without the
progress bar, `shutil.copy2` (line 650) also preserves the source's
mtime. -/
def installedInfo (o : SyncOptions) (now : Nat) (sf : FileInfo) : FileInfo :=
  if o.richProgress then {sf with mtime := (now : Int)} else sf

/-- Tree effect of a successful non-dry `_copy_file` (local backends):
the missing parent directory is created first, an existing destination
is backed up when `backup` is set, then the transfer — chunk loop or
`shutil.copy2` — installs the source file's content at the
destination. -/
def copyFileState (o : SyncOptions) (now : Nat) (sourceFiles dst : EntryIndex)
    (rel : String) : EntryIndex :=
  match lookupKey sourceFiles rel with
  | some sf =>
    insertEntry (backupIfNeeded o now (ensureParentDir now dst rel) rel) rel
      (installedInfo o now sf)
  | none => backupIfNeeded o now (ensureParentDir now dst rel) rel

/-- Tree effect of a successful non-dry `_delete_path`: a best-effort
file backup first when `backup` is set (files only, lines 691-707), then
`os.unlink` for a file or recursive `shutil.rmtree` for a directory. -/
def deleteState (o : SyncOptions) (now : Nat) (dst : EntryIndex)
    (rel : String) (isDir : Bool) : EntryIndex :=
  let d1 :=
    if o.backup ∧ ¬isDir then
      match lookupKey dst rel with
      | some old => insertEntry dst (bakKey rel now) old
      | none => dst
    else dst
  if isDir then
    d1.filter (fun e => ¬(e.1 = rel ∨ (rel ++ "/").isPrefixOf e.1))
  else removeEntry d1 rel

/-- Size the transfer loop reads from the source file. -/
def sizeAt (idx : EntryIndex) (k : String) : Nat :=
  match lookupKey idx k with
  | some f => f.size
  | none => 0

/-- Stats increment of a successful transfer: `copied` or `updated`
depending on the pass, plus the transferred bytes (zero in dry-run,
which returns before the transfer loop). -/
def bumpFile (isUpdate : Bool) (s : Stats) (bytes : Nat) : Stats :=
  if isUpdate then
    {s with updated := s.updated + 1, bytesTransferred := s.bytesTransferred + bytes}
  else
    {s with copied := s.copied + 1, bytesTransferred := s.bytesTransferred + bytes}

/-- Directory-creation pass (lines 960-963): each directory of `to_copy`
is created; dry-run logs only and reports success; `_create_directory`
increments `errors` itself on failure, the caller increments `copied` on
success. -/
def execDirStep (o : SyncOptions) (now : Nat) (orc : Oracle)
    (st : EntryIndex × Stats) (it : String × Bool) : EntryIndex × Stats :=
  if it.2 then
    if o.dryRun then (st.1, {st.2 with copied := st.2.copied + 1})
    else if orc.mkdirOk it.1 then
      (insertEntry st.1 it.1 (mkDirInfo now), {st.2 with copied := st.2.copied + 1})
    else (st.1, {st.2 with errors := st.2.errors + 1})
  else st

/-- Iteration of the directory-creation pass over `to_copy`. -/
def execDirPhase (o : SyncOptions) (now : Nat) (orc : Oracle) :
    EntryIndex × Stats → List (String × Bool) → EntryIndex × Stats
  | st, [] => st
  | st, it :: items => execDirPhase o now orc (execDirStep o now orc st it) items

/-- File-transfer passes (lines 966-977): the non-directories of
`to_copy` (incrementing `copied`) or of `to_update` (incrementing
`updated`); dry-run logs only and reports success; a failed transfer
increments `errors`. -/
def execFileStep (o : SyncOptions) (sourceFiles : EntryIndex) (now : Nat)
    (orc : Oracle) (isUpdate : Bool) (st : EntryIndex × Stats)
    (it : String × Bool) : EntryIndex × Stats :=
  if it.2 then st
  else if o.dryRun then (st.1, bumpFile isUpdate st.2 0)
  else if orc.copyOk it.1 then
    (copyFileState o now sourceFiles st.1 it.1,
     bumpFile isUpdate st.2 (sizeAt sourceFiles it.1))
  else (st.1, {st.2 with errors := st.2.errors + 1})

/-- Iteration of a file-transfer pass over its items. -/
def execFilePhase (o : SyncOptions) (sourceFiles : EntryIndex) (now : Nat)
    (orc : Oracle) (isUpdate : Bool) :
    EntryIndex × Stats → List (String × Bool) → EntryIndex × Stats
  | st, [] => st
  | st, it :: items =>
    execFilePhase o sourceFiles now orc isUpdate
      (execFileStep o sourceFiles now orc isUpdate st it) items

/-- Deletion pass (lines 980-982), mirror mode only. -/
def execDeleteStep (o : SyncOptions) (now : Nat) (orc : Oracle)
    (st : EntryIndex × Stats) (it : String × Bool) : EntryIndex × Stats :=
  if o.dryRun then (st.1, {st.2 with deleted := st.2.deleted + 1})
  else if orc.deleteOk it.1 then
    (deleteState o now st.1 it.1 it.2, {st.2 with deleted := st.2.deleted + 1})
  else (st.1, {st.2 with errors := st.2.errors + 1})

/-- Iteration of the deletion pass over `to_delete`. -/
def execDeletePhase (o : SyncOptions) (now : Nat) (orc : Oracle) :
    EntryIndex × Stats → List (String × Bool) → EntryIndex × Stats
  | st, [] => st
  | st, it :: items => execDeletePhase o now orc (execDeleteStep o now orc st it) items

/-- Environment of one `synchronize()` call: existence of the two roots,
whether creating a missing destination root would succeed, the two
scanned trees, the run's unix timestamp, and the success oracle of the
executor. -/
structure World where
  sourceExists : Bool
  destExists : Bool
  createDestOk : Bool
  src : EntryIndex
  dst : EntryIndex
  now : Nat
  oracle : Oracle

/-- Filtered source index (lines 886-892). -/
def syncSourceFiles (o : SyncOptions) (w : World) : EntryIndex :=
  w.src.filter (fun e => shouldIncludeFile o e.1)

/-- Destination index: scanned when the destination root exists, empty
otherwise (lines 895-898; a freshly created destination lists empty). -/
def syncDestFiles (w : World) : EntryIndex :=
  if w.destExists then w.dst else []

/-- Conflicts detected for this run (line 903). -/
def syncConflicts (o : SyncOptions) (w : World) : List String :=
  detectConflicts o (syncSourceFiles o w) (syncDestFiles w)

/-- Plan accumulated by the planning loop for this run. -/
def syncPlan (o : SyncOptions) (w : World) : Plan :=
  buildPlan o (syncSourceFiles o w) (syncDestFiles w) (syncConflicts o w)

/-- Mirror-mode deletions for this run. -/
def syncDeletes (o : SyncOptions) (w : World) : List (String × Bool) :=
  mirrorDeletes o (syncSourceFiles o w) (syncDestFiles w)

/-- The four execution passes in plan order (lines 960-982), starting
from the scanned destination tree and the conflicts counted during
planning. -/
def syncExec (o : SyncOptions) (w : World) : EntryIndex × Stats :=
  execDeletePhase o w.now w.oracle
    (execFilePhase o (syncSourceFiles o w) w.now w.oracle true
      (execFilePhase o (syncSourceFiles o w) w.now w.oracle false
        (execDirPhase o w.now w.oracle
          (syncDestFiles w, {conflicts := (syncPlan o w).conflictCount})
          (syncPlan o w).toCopy)
        (syncPlan o w).toCopy)
      (syncPlan o w).toUpdate)
    (syncDeletes o w)

/-- Final stats of a run that reached the execution phase:
`stats["skipped"]` is assigned from the planner's skip list at the end
(line 984). -/
def syncFinalStats (o : SyncOptions) (w : World) : Stats :=
  {(syncExec o w).2 with skipped := (syncPlan o w).skipped.length}

/-- The `synchronize()` pipeline (lines 864-987): existence checks (a
missing source returns `False` at once; a missing destination outside
mirror mode is created, a real creation failure counting one error and
returning `False`), scan and filter of the source, scan of the
destination when it exists, conflict detection, planning, the four
execution passes in plan order, and the final stats.  Returns
(success, stats, resulting destination tree); the regular exit returns
`stats["errors"] == 0`.  The engine never mutates the source tree. -/
def synchronize (o : SyncOptions) (w : World) : Bool × Stats × EntryIndex :=
  if ¬w.sourceExists then (false, {}, syncDestFiles w)
  else if ¬w.destExists ∧ o.syncMode ≠ SyncMode.mirror ∧ ¬o.dryRun ∧ ¬w.createDestOk then
    (false, {errors := 1}, syncDestFiles w)
  else
    ((syncFinalStats o w).errors == 0, syncFinalStats o w, (syncExec o w).1)

/-! ## Tree scanner: `_list_files` -/

/-- One pending item of a local `os.walk` scan: its relative path and
the result of `os.stat` on it (`none` models a raised OSError). -/
structure RawEntry where
  path : String
  statResult : Option FileInfo
deriving DecidableEq, Repr

/-- Local branch of `_list_files` (lines 370-392): entries are collected
in walk order into `files`; a raised stat error propagates to the outer
handler (line 429), which logs it, abandons the rest of the walk and
returns the entries collected so far. -/
def listFilesLocal : List RawEntry → List (String × FileInfo)
  | [] => []
  | e :: rest =>
    match e.statResult with
    | some info => (e.path, info) :: listFilesLocal rest
    | none => []

/-- One item of a remote `listdir_attr` listing: its filename and
metadata, and — for a directory — the children a recursive listing
would see below it. -/
inductive RTree where
  | file (name : String) (info : FileInfo)
  | dir (name : String) (mtime : Int) (children : List RTree)
deriving Repr

/-- Remote branch of `_list_files` (lines 393-428).  The name `stat` is
a local variable of `_list_files`, assigned only in the local branch
(line 375); in the remote branch the nested `list_remote_dir` therefore
hits an unassigned `stat` at `stat.S_ISDIR(item.st_mode)` (line 406) on
the first item of its listing, raising NameError, which the handler at
line 424 catches, logging it and returning `[]` for the whole listing.
An empty listing falls through the loop and also returns `[]`.  Either
way every remote listing — in particular the root call at line 428 —
produces the empty list, and the recursion into subdirectories
(line 414) is never reached. -/
def listRemoteDir : List RTree → List (String × FileInfo)
  | [] => []
  | _ :: _ => []

/-- Selector describing which source entries the planning loop routes to
`to_copy` when the conflict list is empty: absent directories, and files
the comparator classifies as Copy. -/
def copySel (o : SyncOptions) (D : EntryIndex) (e : String × FileInfo) :
    Option (String × Bool) :=
  match lookupKey D e.1 with
  | none =>
    if e.2.isDir then some (e.1, true)
    else if compareFiles o e.2 none e.2.checksum (checksumOf none) = .copy then
      some (e.1, false)
    else none
  | some d =>
    if e.2.isDir then none
    else if compareFiles o e.2 (some d) e.2.checksum d.checksum = .copy then
      some (e.1, false)
    else none

/-- Selector describing which source entries the planning loop routes to
`to_update` when the conflict list is empty: files the comparator
classifies as Update. -/
def updateSel (o : SyncOptions) (D : EntryIndex) (e : String × FileInfo) :
    Option (String × Bool) :=
  match lookupKey D e.1 with
  | none =>
    if e.2.isDir then none
    else if compareFiles o e.2 none e.2.checksum (checksumOf none) = .update then
      some (e.1, false)
    else none
  | some d =>
    if e.2.isDir then none
    else if compareFiles o e.2 (some d) e.2.checksum d.checksum = .update then
      some (e.1, false)
    else none

/-- Whether a relative path has the shape of a backup name generated at
timestamp `now`, i.e. ends in `".bak." + now`. -/
def isBakShaped (p : String) (now : Nat) : Bool :=
  (".bak." ++ toString now).data.isSuffixOf p.data

/-! ## Comparator policy as the specification words it -/

/-- Comparator policy exactly as §4.4 of the specification states it
(claim C1); to be compared with the code's `compareFiles`. -/
def compareSpec (o : SyncOptions) (sourceFile : FileInfo) (destFile : Option FileInfo)
    (sourceChecksum destChecksum : String) : FileAction :=
  match destFile with
  | none => .copy
  | some d =>
    if sourceFile.size ≠ d.size then .update
    else if o.useTimestamp ∧ ¬o.useChecksum then
      (if d.mtime + 2 < sourceFile.mtime then .update else .skip)
    else if o.useChecksum then
      (if sourceChecksum ≠ "" ∧ destChecksum ≠ "" ∧ sourceChecksum ≠ destChecksum then
        .update
       else .skip)
    else .skip

/-! ## Concrete runs used by witnesses and counterexamples -/

/-- One-way timestamp-based options of a quiet run (metadata-preserving
`shutil.copy2` transfers). -/
def exOneWay : SyncOptions :=
  { syncMode := .oneWay, excludePatterns := [], includePatterns := [],
    useTimestamp := true, useChecksum := false, backup := false, force := false,
    dryRun := false, richProgress := false }

/-- A five-byte source file. -/
def exFileA : FileInfo := ⟨5, 100, false, "ha"⟩

/-- A world with both roots present, timestamp 7 and no failing
operation. -/
def exWorld (src dst : EntryIndex) : World :=
  ⟨true, true, true, src, dst, 7, allOk⟩

/-- Mirror-mode options excluding `old.txt`. -/
def exMirrorExcl : SyncOptions :=
  { exOneWay with syncMode := .mirror, excludePatterns := ["old.txt"] }

/-- Mirror-mode options with no patterns. -/
def exMirrorPlain : SyncOptions := { exOneWay with syncMode := .mirror }

/-- A world whose source root does not exist. -/
def exWorldNoSource : World :=
  ⟨false, true, true, [("a.txt", exFileA)], [], 7, allOk⟩

/-- Two-way forced options (timestamp comparison). -/
def exTwoWayForce : SyncOptions := { exOneWay with syncMode := .twoWay, force := true }

/-- Two-way unforced options. -/
def exTwoWayNoForce : SyncOptions := { exOneWay with syncMode := .twoWay }

/-- Conflicting trees: `shared.txt` differs by 90 seconds of mtime. -/
def exSharedSrc : EntryIndex := [("shared.txt", ⟨5, 100, false, "x"⟩)]

/-- Destination side of the conflicting trees (older mtime). -/
def exSharedDst : EntryIndex := [("shared.txt", ⟨5, 10, false, "y"⟩)]

/-- One-way options with backups enabled. -/
def exBakOpts : SyncOptions := { exOneWay with backup := true }

/-- Source tree owning a path that collides with the backup name the
run at timestamp 7 generates for `a`. -/
def exBakSrc : EntryIndex := [("a", ⟨1, 0, false, "x"⟩), ("a.bak.7", ⟨1, 0, false, "z"⟩)]

/-- Destination tree with an out-of-date `a`. -/
def exBakDst : EntryIndex := [("a", ⟨2, 0, false, "y"⟩)]

/-- A local walk whose first pending entry fails to stat. -/
def exRawFail : List RawEntry := [⟨"a", none⟩, ⟨"b", some exFileA⟩]

/-! ## Helper lemmas and claim theorems -/

theorem scanClass_length : ∀ {l cls r : List Char},
    scanClass l = some (cls, r) → r.length < l.length := by
  intro l
  induction l with
  | nil => intro _ _ h; simp [scanClass] at h
  | cons c rest ih =>
    intro cls r h
    rw [scanClass.eq_def] at h
    split at h
    · exact absurd h (by simp)
    · rename_i rest' heq
      injection heq with _ h3
      subst h3
      simp at h
      obtain ⟨_, h2⟩ := h
      subst h2
      simp
    · rename_i c' rest' hne heq
      injection heq with h1 h2
      subst h2
      split at h
      · rename_i cls' r' hs
        simp at h
        obtain ⟨_, h2⟩ := h
        subst h2
        exact Nat.lt_succ_of_lt (ih hs)
      · exact absurd h (by simp)

theorem parseClassBody_length : ∀ {l cls r : List Char},
    parseClassBody l = some (cls, r) → r.length < l.length := by
  intro l cls r h
  rw [parseClassBody.eq_def] at h
  split at h
  · rename_i rest
    cases hs : scanClass rest with
    | none => rw [hs] at h; exact absurd h (by simp)
    | some p =>
      rw [hs] at h
      simp at h
      obtain ⟨_, h2⟩ := h
      subst h2
      exact Nat.lt_succ_of_lt (scanClass_length hs)
  · exact scanClass_length h

theorem parseClass_length : ∀ {l : List Char} {neg : Bool} {cls r : List Char},
    parseClass l = some (neg, cls, r) → r.length < l.length := by
  intro l neg cls r h
  rw [parseClass.eq_def] at h
  split at h
  · rename_i rest
    cases hs : parseClassBody rest with
    | none => rw [hs] at h; exact absurd h (by simp)
    | some p =>
      rw [hs] at h
      simp at h
      obtain ⟨_, h2⟩ := h
      subst h2
      exact Nat.lt_succ_of_lt (parseClassBody_length hs)
  · cases hs : parseClassBody l with
    | none => rw [hs] at h; exact absurd h (by simp)
    | some p =>
      rw [hs] at h
      simp at h
      obtain ⟨_, h2⟩ := h
      subst h2
      exact parseClassBody_length hs

/-! ## C1: comparator classification -/

/-- C1: for every source file entry the comparator classifies the
required action as stated: no destination entry gives Copy; a size
difference gives Update; with `useTimestamp` and not `useChecksum`,
Update exactly when the source mtime exceeds the destination mtime plus
2 seconds, else Skip; with `useChecksum`, Update exactly when both
checksums are non-empty and differ, else Skip. -/
theorem comparator_matches_spec (o : SyncOptions) (sf : FileInfo)
    (df : Option FileInfo) (sck dck : String) :
    compareFiles o sf df sck dck = compareSpec o sf df sck dck := by
  cases df with
  | none => rfl
  | some d =>
    simp only [compareFiles, compareSpec]
    split_ifs <;> first | rfl | tauto

/-! ## C5: conflict resolution -/

/-- C5: for a conflict path the resolver returns Update when `force` is
set; otherwise Update exactly when the source modification time is
strictly newer than the destination's, and Skip when they are equal or
the destination is newer. -/
theorem resolver_verdict (o : SyncOptions) (sf df : FileInfo) :
    (resolveConflict o sf df = .update ↔ (o.force = true ∨ df.mtime < sf.mtime)) ∧
    (o.force = false → sf.mtime ≤ df.mtime → resolveConflict o sf df = .skip) := by
  unfold resolveConflict
  constructor
  · split_ifs <;> simp_all
  · intro hf hle
    split_ifs <;> simp_all
    omega

/-- Witness for C5: destination newer and `force` unset yields Skip. -/
theorem resolver_verdict_witness :
    resolveConflict exTwoWayNoForce ⟨5, 10, false, "x"⟩ ⟨5, 100, false, "y"⟩ =
      FileAction.skip :=
  (resolver_verdict exTwoWayNoForce ⟨5, 10, false, "x"⟩ ⟨5, 100, false, "y"⟩).2
    (by decide) (by decide)

/-! ## C10: comparison with both flags off -/

/-- C10: with `useTimestamp` and `useChecksum` both false — the
command-line default, both flags being off unless explicitly given — a
source file whose destination entry exists with equal size is
classified Skip, regardless of any content or mtime difference. -/
theorem default_compare_is_size_only (o : SyncOptions) (sf d : FileInfo)
    (sck dck : String) (ht : o.useTimestamp = false) (hc : o.useChecksum = false)
    (hs : sf.size = d.size) :
    compareFiles o sf (some d) sck dck = FileAction.skip ∧
    cliDefaultOptions.useTimestamp = false ∧ cliDefaultOptions.useChecksum = false := by
  refine ⟨?_, rfl, rfl⟩
  unfold compareFiles
  split_ifs <;> simp_all

/-- Witness for C10: equal sizes but different mtimes and contents are
still skipped under the default options. -/
theorem default_compare_is_size_only_witness :
    compareFiles cliDefaultOptions ⟨4, 900, false, "aa"⟩ (some ⟨4, 0, false, "bb"⟩)
      "aa" "bb" = FileAction.skip :=
  (default_compare_is_size_only cliDefaultOptions ⟨4, 900, false, "aa"⟩
    ⟨4, 0, false, "bb"⟩ "aa" "bb" rfl rfl rfl).1

/-! ## C7: filter policy -/

/-- C7: the filter returns false whenever the path or its base name
matches any exclude pattern, regardless of include patterns; with a
non-empty include list it returns true only when the path or its base
name matches at least one include pattern; with an empty include list
and no matching exclude pattern it returns true. -/
theorem filter_policy (o : SyncOptions) (p : String) :
    ((∃ pat ∈ o.excludePatterns,
        fnmatch p pat = true ∨ fnmatch (basename p) pat = true) →
      shouldIncludeFile o p = false) ∧
    (o.includePatterns ≠ [] → shouldIncludeFile o p = true →
      ∃ pat ∈ o.includePatterns,
        fnmatch p pat = true ∨ fnmatch (basename p) pat = true) ∧
    ((∀ pat ∈ o.excludePatterns,
        fnmatch p pat = false ∧ fnmatch (basename p) pat = false) →
      o.includePatterns = [] → shouldIncludeFile o p = true) := by
  refine ⟨fun hex => ?_, fun hne hinc => ?_, fun hnoex hinc => ?_⟩
  · unfold shouldIncludeFile
    have hE : (o.excludePatterns.any
        (fun pat => fnmatch p pat || fnmatch (basename p) pat)) = true := by
      obtain ⟨pat, hmem, hm⟩ := hex
      exact List.any_eq_true.mpr ⟨pat, hmem, by rcases hm with h | h <;> simp [h]⟩
    simp [hE]
  · unfold shouldIncludeFile at hinc
    by_cases hE : (o.excludePatterns.any
        (fun pat => fnmatch p pat || fnmatch (basename p) pat)) = true
    · simp [hE] at hinc
    · rw [if_neg (by simpa using hE), if_pos hne] at hinc
      obtain ⟨pat, hmem, hm⟩ := List.any_eq_true.mp hinc
      exact ⟨pat, hmem, by simpa using hm⟩
  · unfold shouldIncludeFile
    have hE : (o.excludePatterns.any
        (fun pat => fnmatch p pat || fnmatch (basename p) pat)) = false := by
      rw [List.any_eq_false]
      intro pat hmem
      have h := hnoex pat hmem
      simp [h.1, h.2]
    simp [hE, hinc]

/-- Witness for C7: `old.txt` matches the exclude pattern `old.txt`, so
the filter rejects it. -/
theorem filter_policy_witness :
    shouldIncludeFile exMirrorExcl "old.txt" = false :=
  (filter_policy exMirrorExcl "old.txt").1 ⟨"old.txt", by decide, Or.inl (by decide)⟩

/-! ## C2: mirror-mode deletions -/

/-- Counterexample to C2 as stated: in mirror mode, `old.txt` is absent
from the (empty) filtered source index, yet no Delete is planned and
none is executed, because the code additionally requires the
destination path itself to pass the include/exclude filter, and
`old.txt` is excluded. -/
theorem mirror_delete_claim_counterexample :
    exMirrorExcl.syncMode = SyncMode.mirror ∧
    lookupKey [] "old.txt" = none ∧
    mirrorDeletes exMirrorExcl [] [("old.txt", exFileA)] = [] ∧
    (synchronize exMirrorExcl (exWorld [] [("old.txt", exFileA)])).2.1.deleted = 0 := by
  exact ⟨by decide, by decide, by decide, by decide⟩

/-- C2 (amended): a Delete is planned for `(rel, isDir)` iff the mode is
mirror, `rel` is absent from the filtered source index, `rel` itself
passes the include/exclude filter, and the destination holds such an
entry; one-way and two-way modes never plan a deletion. -/
theorem mirror_delete_characterization (o : SyncOptions) (S D : EntryIndex)
    (rel : String) (b : Bool) :
    ((rel, b) ∈ mirrorDeletes o S D ↔
      (o.syncMode = SyncMode.mirror ∧ lookupKey S rel = none ∧
        shouldIncludeFile o rel = true ∧ ∃ f, (rel, f) ∈ D ∧ f.isDir = b)) ∧
    (o.syncMode ≠ SyncMode.mirror → mirrorDeletes o S D = []) := by
  constructor
  · unfold mirrorDeletes
    split_ifs with hm
    · simp only [hm, List.mem_filterMap, true_and]
      constructor
      · rintro ⟨e, hmem, he⟩
        split_ifs at he with hc
        injection he with he'
        injection he' with h1 h2
        subst h1
        exact ⟨hc.1, hc.2, e.2, by simpa using hmem, h2⟩
      · rintro ⟨h1, h2, f, hmem, hb⟩
        exact ⟨(rel, f), hmem, by simp [h1, h2, hb]⟩
    · simp [hm]
  · intro h
    unfold mirrorDeletes
    simp [h]

/-- Witness for C2 (amended): with no patterns, the stale `old.txt` is
planned for deletion in mirror mode. -/
theorem mirror_delete_characterization_witness :
    ("old.txt", false) ∈ mirrorDeletes exMirrorPlain [] [("old.txt", exFileA)] :=
  (mirror_delete_characterization exMirrorPlain [] [("old.txt", exFileA)]
      "old.txt" false).1.mpr
    ⟨by decide, by decide, by decide, exFileA, by decide, by decide⟩

/-! ## C6: conflict accounting -/

/-- Counterexample to C6 as stated: a detected conflict whose resolution
is Update (here through `force`) is not counted — at the end of the run
`stats["conflicts"]` is 0 although one conflict was detected. -/
theorem conflict_count_claim_counterexample :
    detectConflicts exTwoWayForce exSharedSrc exSharedDst = ["shared.txt"] ∧
    (synchronize exTwoWayForce (exWorld exSharedSrc exSharedDst)).2.1.conflicts = 0 ∧
    (synchronize exTwoWayForce (exWorld exSharedSrc exSharedDst)).2.1.updated = 1 := by
  exact ⟨by decide, by decide, by decide⟩

theorem routePlan_conflictCount (acc : Plan) (rel : String) (a : FileAction) :
    (routePlan acc rel a).conflictCount = acc.conflictCount := by
  unfold routePlan
  cases a <;> rfl

theorem planStep_conflictCount (o : SyncOptions) (D : EntryIndex)
    (conflicts : List String) (acc : Plan) (e : String × FileInfo) :
    (planStep o D conflicts acc e).conflictCount =
      acc.conflictCount + (if conflictSkipP o D conflicts e = true then 1 else 0) := by
  unfold planStep
  split
  · rename_i h
    have hp : conflictSkipP o D conflicts e = false := by simp [conflictSkipP, h]
    split_ifs <;> simp_all [routePlan_conflictCount]
  · rename_i d h
    by_cases hd : e.2.isDir = true
    · have hp : conflictSkipP o D conflicts e = false := by simp [conflictSkipP, hd]
      simp [hd, hp]
    · by_cases hc : e.1 ∈ conflicts
      · rw [if_neg hd, if_pos hc]
        cases hr : resolveConflict o e.2 d <;>
          simp_all [conflictSkipP, routePlan_conflictCount]
      · have hp : conflictSkipP o D conflicts e = false := by simp [conflictSkipP, hc]
        rw [if_neg hd, if_neg hc]
        simp [hp, routePlan_conflictCount]

theorem buildPlanAux_conflictCount (o : SyncOptions) (D : EntryIndex)
    (conflicts : List String) :
    ∀ (S : EntryIndex) (acc : Plan),
      (buildPlanAux o D conflicts acc S).conflictCount =
        acc.conflictCount + (S.filter (conflictSkipP o D conflicts)).length := by
  intro S
  induction S with
  | nil => intro acc; simp [buildPlanAux]
  | cons e rest ih =>
    intro acc
    rw [show buildPlanAux o D conflicts acc (e :: rest) =
          buildPlanAux o D conflicts (planStep o D conflicts acc e) rest from rfl,
      ih, planStep_conflictCount, List.filter_cons]
    split_ifs <;> simp <;> omega

theorem execDirPhase_conflicts (o : SyncOptions) (now : Nat) (orc : Oracle) :
    ∀ (items : List (String × Bool)) (st : EntryIndex × Stats),
      (execDirPhase o now orc st items).2.conflicts = st.2.conflicts := by
  intro items
  induction items with
  | nil => intro st; rfl
  | cons it items ih =>
    intro st
    rw [show execDirPhase o now orc st (it :: items) =
          execDirPhase o now orc (execDirStep o now orc st it) items from rfl, ih]
    unfold execDirStep
    split_ifs <;> rfl

theorem execFilePhase_conflicts (o : SyncOptions) (S : EntryIndex) (now : Nat)
    (orc : Oracle) (isUpdate : Bool) :
    ∀ (items : List (String × Bool)) (st : EntryIndex × Stats),
      (execFilePhase o S now orc isUpdate st items).2.conflicts = st.2.conflicts := by
  intro items
  induction items with
  | nil => intro st; rfl
  | cons it items ih =>
    intro st
    rw [show execFilePhase o S now orc isUpdate st (it :: items) =
          execFilePhase o S now orc isUpdate
            (execFileStep o S now orc isUpdate st it) items from rfl, ih]
    unfold execFileStep bumpFile
    split_ifs <;> rfl

theorem execDeletePhase_conflicts (o : SyncOptions) (now : Nat) (orc : Oracle) :
    ∀ (items : List (String × Bool)) (st : EntryIndex × Stats),
      (execDeletePhase o now orc st items).2.conflicts = st.2.conflicts := by
  intro items
  induction items with
  | nil => intro st; rfl
  | cons it items ih =>
    intro st
    rw [show execDeletePhase o now orc st (it :: items) =
          execDeletePhase o now orc (execDeleteStep o now orc st it) items from rfl, ih]
    unfold execDeleteStep
    split_ifs <;> rfl

/-- C6 (amended): at the end of a run (with both roots present) the
conflicts statistic counts exactly the detected conflicts whose
resolution was Skip; conflicts resolved as Update are not counted. -/
theorem conflict_count_skips_only (o : SyncOptions) (w : World)
    (hs : w.sourceExists = true) (hd : w.destExists = true) :
    (synchronize o w).2.1.conflicts =
      ((w.src.filter (fun e => shouldIncludeFile o e.1)).filter
        (conflictSkipP o w.dst
          (detectConflicts o (w.src.filter (fun e => shouldIncludeFile o e.1))
            w.dst))).length := by
  unfold synchronize
  rw [if_neg (by simp [hs]), if_neg (by simp [hd])]
  show (syncFinalStats o w).conflicts = _
  unfold syncFinalStats syncExec
  rw [execDeletePhase_conflicts, execFilePhase_conflicts, execFilePhase_conflicts,
    execDirPhase_conflicts]
  show ({conflicts := (syncPlan o w).conflictCount} : Stats).conflicts = _
  unfold syncPlan buildPlan
  rw [buildPlanAux_conflictCount]
  simp [syncSourceFiles, syncDestFiles, syncConflicts, hd]

/-- Witness for C6 (amended): one detected conflict resolved as Skip is
counted once. -/
theorem conflict_count_skips_only_witness :
    (synchronize exTwoWayNoForce (exWorld exSharedDst exSharedSrc)).2.1.conflicts = 1 := by
  rw [conflict_count_skips_only exTwoWayNoForce (exWorld exSharedDst exSharedSrc) rfl rfl]
  decide

/-! ## C4: the success flag -/

/-- Counterexample to C4 as stated: when the source path does not exist,
`synchronize()` returns False although the errors counter is 0, so a
false return does not imply errors > 0. -/
theorem success_flag_claim_counterexample :
    (synchronize exOneWay exWorldNoSource).1 = false ∧
    (synchronize exOneWay exWorldNoSource).2.1.errors = 0 := by
  exact ⟨by decide, by decide⟩

/-- C4 (amended): provided the source path exists, `synchronize()`
returns true iff the errors counter is 0 at the end of the run; when
the source path is missing it returns false even though errors is 0. -/
theorem success_iff_no_errors (o : SyncOptions) (w : World)
    (hs : w.sourceExists = true) :
    ((synchronize o w).1 = true ↔ (synchronize o w).2.1.errors = 0) := by
  unfold synchronize
  rw [if_neg (by simp [hs])]
  split_ifs with h
  · simp
  · simp

/-- Witness for C4 (amended): an error-free run returns true. -/
theorem success_iff_no_errors_witness :
    (synchronize exOneWay (exWorld [("a.txt", exFileA)] [])).1 = true :=
  (success_iff_no_errors exOneWay (exWorld [("a.txt", exFileA)] []) rfl).mpr (by decide)

/-! ## C3: dry-run -/

theorem planStep_dryRun (o : SyncOptions) (b : Bool) (D : EntryIndex)
    (c : List String) (acc : Plan) (e : String × FileInfo) :
    planStep {o with dryRun := b} D c acc e = planStep o D c acc e := rfl

theorem buildPlanAux_dryRun (o : SyncOptions) (b : Bool) (D : EntryIndex)
    (c : List String) :
    ∀ (S : EntryIndex) (acc : Plan),
      buildPlanAux {o with dryRun := b} D c acc S = buildPlanAux o D c acc S := by
  intro S
  induction S with
  | nil => intro acc; rfl
  | cons e rest ih =>
    intro acc
    rw [show buildPlanAux {o with dryRun := b} D c acc (e :: rest) =
          buildPlanAux {o with dryRun := b} D c
            (planStep {o with dryRun := b} D c acc e) rest from rfl,
      planStep_dryRun, ih]
    rfl

theorem syncPlan_dryRun (o : SyncOptions) (b : Bool) (w : World) :
    syncPlan {o with dryRun := b} w = syncPlan o w := by
  show buildPlanAux {o with dryRun := b} (syncDestFiles w) (syncConflicts o w) {}
      (syncSourceFiles o w) = _
  rw [buildPlanAux_dryRun]
  rfl

theorem syncDeletes_dryRun (o : SyncOptions) (b : Bool) (w : World) :
    syncDeletes {o with dryRun := b} w = syncDeletes o w := rfl

theorem execDirPhase_copied (o : SyncOptions) (now : Nat) (orc : Oracle)
    (h : o.dryRun = true ∨ orc = allOk) :
    ∀ (items : List (String × Bool)) (st : EntryIndex × Stats),
      (execDirPhase o now orc st items).2.copied =
        st.2.copied + items.countP (fun it => it.2) := by
  intro items
  induction items with
  | nil => intro st; simp [execDirPhase]
  | cons it items ih =>
    intro st
    rw [show execDirPhase o now orc st (it :: items) =
          execDirPhase o now orc (execDirStep o now orc st it) items from rfl,
      ih, List.countP_cons]
    unfold execDirStep
    rcases h with h | h
    · split_ifs <;> simp_all <;> omega
    · subst h
      simp only [allOk]
      split_ifs <;> simp_all <;> omega

theorem execDirPhase_updated (o : SyncOptions) (now : Nat) (orc : Oracle) :
    ∀ items st, (execDirPhase o now orc st items).2.updated = st.2.updated := by
  intro items
  induction items with
  | nil => intro st; rfl
  | cons it items ih =>
    intro st
    rw [show execDirPhase o now orc st (it :: items) =
          execDirPhase o now orc (execDirStep o now orc st it) items from rfl, ih]
    unfold execDirStep
    split_ifs <;> rfl

theorem execDirPhase_deleted (o : SyncOptions) (now : Nat) (orc : Oracle) :
    ∀ items st, (execDirPhase o now orc st items).2.deleted = st.2.deleted := by
  intro items
  induction items with
  | nil => intro st; rfl
  | cons it items ih =>
    intro st
    rw [show execDirPhase o now orc st (it :: items) =
          execDirPhase o now orc (execDirStep o now orc st it) items from rfl, ih]
    unfold execDirStep
    split_ifs <;> rfl

theorem execDirPhase_skipped (o : SyncOptions) (now : Nat) (orc : Oracle) :
    ∀ items st, (execDirPhase o now orc st items).2.skipped = st.2.skipped := by
  intro items
  induction items with
  | nil => intro st; rfl
  | cons it items ih =>
    intro st
    rw [show execDirPhase o now orc st (it :: items) =
          execDirPhase o now orc (execDirStep o now orc st it) items from rfl, ih]
    unfold execDirStep
    split_ifs <;> rfl

theorem execFilePhase_copied (o : SyncOptions) (S : EntryIndex) (now : Nat)
    (orc : Oracle) (isUpdate : Bool) (h : o.dryRun = true ∨ orc = allOk) :
    ∀ items st, (execFilePhase o S now orc isUpdate st items).2.copied =
      st.2.copied + (if isUpdate then 0 else items.countP (fun it => !it.2)) := by
  intro items
  induction items with
  | nil => intro st; cases isUpdate <;> simp [execFilePhase]
  | cons it items ih =>
    intro st
    rw [show execFilePhase o S now orc isUpdate st (it :: items) =
          execFilePhase o S now orc isUpdate
            (execFileStep o S now orc isUpdate st it) items from rfl,
      ih, List.countP_cons]
    unfold execFileStep bumpFile
    rcases h with h | h
    · cases isUpdate <;> split_ifs <;> simp_all <;> omega
    · subst h
      simp only [allOk]
      cases isUpdate <;> split_ifs <;> simp_all <;> omega

theorem execFilePhase_updated (o : SyncOptions) (S : EntryIndex) (now : Nat)
    (orc : Oracle) (isUpdate : Bool) (h : o.dryRun = true ∨ orc = allOk) :
    ∀ items st, (execFilePhase o S now orc isUpdate st items).2.updated =
      st.2.updated + (if isUpdate then items.countP (fun it => !it.2) else 0) := by
  intro items
  induction items with
  | nil => intro st; cases isUpdate <;> simp [execFilePhase]
  | cons it items ih =>
    intro st
    rw [show execFilePhase o S now orc isUpdate st (it :: items) =
          execFilePhase o S now orc isUpdate
            (execFileStep o S now orc isUpdate st it) items from rfl,
      ih, List.countP_cons]
    unfold execFileStep bumpFile
    rcases h with h | h
    · cases isUpdate <;> split_ifs <;> simp_all <;> omega
    · subst h
      simp only [allOk]
      cases isUpdate <;> split_ifs <;> simp_all <;> omega

theorem execFilePhase_deleted (o : SyncOptions) (S : EntryIndex) (now : Nat)
    (orc : Oracle) (isUpdate : Bool) :
    ∀ items st, (execFilePhase o S now orc isUpdate st items).2.deleted =
      st.2.deleted := by
  intro items
  induction items with
  | nil => intro st; rfl
  | cons it items ih =>
    intro st
    rw [show execFilePhase o S now orc isUpdate st (it :: items) =
          execFilePhase o S now orc isUpdate
            (execFileStep o S now orc isUpdate st it) items from rfl, ih]
    unfold execFileStep bumpFile
    split_ifs <;> rfl

theorem execFilePhase_skipped (o : SyncOptions) (S : EntryIndex) (now : Nat)
    (orc : Oracle) (isUpdate : Bool) :
    ∀ items st, (execFilePhase o S now orc isUpdate st items).2.skipped =
      st.2.skipped := by
  intro items
  induction items with
  | nil => intro st; rfl
  | cons it items ih =>
    intro st
    rw [show execFilePhase o S now orc isUpdate st (it :: items) =
          execFilePhase o S now orc isUpdate
            (execFileStep o S now orc isUpdate st it) items from rfl, ih]
    unfold execFileStep bumpFile
    split_ifs <;> rfl

theorem execDeletePhase_deleted (o : SyncOptions) (now : Nat) (orc : Oracle)
    (h : o.dryRun = true ∨ orc = allOk) :
    ∀ items st, (execDeletePhase o now orc st items).2.deleted =
      st.2.deleted + items.length := by
  intro items
  induction items with
  | nil => intro st; rfl
  | cons it items ih =>
    intro st
    rw [show execDeletePhase o now orc st (it :: items) =
          execDeletePhase o now orc (execDeleteStep o now orc st it) items from rfl, ih]
    unfold execDeleteStep
    rcases h with h | h
    · split_ifs <;> simp_all <;> omega
    · subst h
      simp only [allOk]
      split_ifs <;> simp_all <;> omega

theorem execDeletePhase_copied (o : SyncOptions) (now : Nat) (orc : Oracle) :
    ∀ items st, (execDeletePhase o now orc st items).2.copied = st.2.copied := by
  intro items
  induction items with
  | nil => intro st; rfl
  | cons it items ih =>
    intro st
    rw [show execDeletePhase o now orc st (it :: items) =
          execDeletePhase o now orc (execDeleteStep o now orc st it) items from rfl, ih]
    unfold execDeleteStep
    split_ifs <;> rfl

theorem execDeletePhase_updated (o : SyncOptions) (now : Nat) (orc : Oracle) :
    ∀ items st, (execDeletePhase o now orc st items).2.updated = st.2.updated := by
  intro items
  induction items with
  | nil => intro st; rfl
  | cons it items ih =>
    intro st
    rw [show execDeletePhase o now orc st (it :: items) =
          execDeletePhase o now orc (execDeleteStep o now orc st it) items from rfl, ih]
    unfold execDeleteStep
    split_ifs <;> rfl

theorem execDeletePhase_skipped (o : SyncOptions) (now : Nat) (orc : Oracle) :
    ∀ items st, (execDeletePhase o now orc st items).2.skipped = st.2.skipped := by
  intro items
  induction items with
  | nil => intro st; rfl
  | cons it items ih =>
    intro st
    rw [show execDeletePhase o now orc st (it :: items) =
          execDeletePhase o now orc (execDeleteStep o now orc st it) items from rfl, ih]
    unfold execDeleteStep
    split_ifs <;> rfl

theorem execDirPhase_dry_index (o : SyncOptions) (now : Nat) (orc : Oracle)
    (hdry : o.dryRun = true) :
    ∀ items st, (execDirPhase o now orc st items).1 = st.1 := by
  intro items
  induction items with
  | nil => intro st; rfl
  | cons it items ih =>
    intro st
    rw [show execDirPhase o now orc st (it :: items) =
          execDirPhase o now orc (execDirStep o now orc st it) items from rfl, ih]
    unfold execDirStep
    split_ifs <;> simp_all

theorem execFilePhase_dry_index (o : SyncOptions) (S : EntryIndex) (now : Nat)
    (orc : Oracle) (isUpdate : Bool) (hdry : o.dryRun = true) :
    ∀ items st, (execFilePhase o S now orc isUpdate st items).1 = st.1 := by
  intro items
  induction items with
  | nil => intro st; rfl
  | cons it items ih =>
    intro st
    rw [show execFilePhase o S now orc isUpdate st (it :: items) =
          execFilePhase o S now orc isUpdate
            (execFileStep o S now orc isUpdate st it) items from rfl, ih]
    unfold execFileStep
    split_ifs <;> simp_all

theorem execDeletePhase_dry_index (o : SyncOptions) (now : Nat) (orc : Oracle)
    (hdry : o.dryRun = true) :
    ∀ items st, (execDeletePhase o now orc st items).1 = st.1 := by
  intro items
  induction items with
  | nil => intro st; rfl
  | cons it items ih =>
    intro st
    rw [show execDeletePhase o now orc st (it :: items) =
          execDeletePhase o now orc (execDeleteStep o now orc st it) items from rfl, ih]
    unfold execDeleteStep
    split_ifs <;> simp_all

/-- C3: for any plan, a dry run produces the same copied, updated,
deleted and skipped tallies as an error-free real run over the same
initial source and destination trees, and leaves the destination tree
exactly as it was scanned (the engine never writes to the source tree
in any mode, so both backends are unchanged). -/
theorem dry_run_counts_and_no_mutation (o : SyncOptions) (w : World)
    (hdry : o.dryRun = true) (hok : w.oracle = allOk) (hcd : w.createDestOk = true) :
    ((synchronize o w).2.1.copied = (synchronize {o with dryRun := false} w).2.1.copied ∧
     (synchronize o w).2.1.updated =
       (synchronize {o with dryRun := false} w).2.1.updated ∧
     (synchronize o w).2.1.deleted =
       (synchronize {o with dryRun := false} w).2.1.deleted ∧
     (synchronize o w).2.1.skipped =
       (synchronize {o with dryRun := false} w).2.1.skipped) ∧
    (synchronize o w).2.2 = syncDestFiles w := by
  by_cases hs : w.sourceExists = true
  · have e1 : synchronize o w =
        ((syncFinalStats o w).errors == 0, syncFinalStats o w, (syncExec o w).1) := by
      unfold synchronize
      rw [if_neg (by simp [hs]), if_neg (by simp [hdry])]
    have e2 : synchronize {o with dryRun := false} w =
        ((syncFinalStats {o with dryRun := false} w).errors == 0,
         syncFinalStats {o with dryRun := false} w,
         (syncExec {o with dryRun := false} w).1) := by
      unfold synchronize
      rw [if_neg (by simp [hs]), if_neg (by simp [hcd])]
    rw [e1, e2]
    refine ⟨⟨?_, ?_, ?_, ?_⟩, ?_⟩
    · show (syncFinalStats o w).copied = (syncFinalStats {o with dryRun := false} w).copied
      unfold syncFinalStats syncExec
      rw [execDeletePhase_copied, execFilePhase_copied _ _ _ _ _ (Or.inl hdry),
        execFilePhase_copied _ _ _ _ _ (Or.inl hdry),
        execDirPhase_copied _ _ _ (Or.inl hdry),
        execDeletePhase_copied, execFilePhase_copied _ _ _ _ _ (Or.inr hok),
        execFilePhase_copied _ _ _ _ _ (Or.inr hok),
        execDirPhase_copied _ _ _ (Or.inr hok)]
      simp [syncPlan_dryRun]
    · show (syncFinalStats o w).updated = (syncFinalStats {o with dryRun := false} w).updated
      unfold syncFinalStats syncExec
      rw [execDeletePhase_updated, execFilePhase_updated _ _ _ _ _ (Or.inl hdry),
        execFilePhase_updated _ _ _ _ _ (Or.inl hdry),
        execDirPhase_updated,
        execDeletePhase_updated, execFilePhase_updated _ _ _ _ _ (Or.inr hok),
        execFilePhase_updated _ _ _ _ _ (Or.inr hok),
        execDirPhase_updated]
      simp [syncPlan_dryRun]
    · show (syncFinalStats o w).deleted = (syncFinalStats {o with dryRun := false} w).deleted
      unfold syncFinalStats syncExec
      rw [execDeletePhase_deleted _ _ _ (Or.inl hdry), execFilePhase_deleted,
        execFilePhase_deleted, execDirPhase_deleted,
        execDeletePhase_deleted _ _ _ (Or.inr hok), execFilePhase_deleted,
        execFilePhase_deleted, execDirPhase_deleted]
      simp [syncDeletes_dryRun]
    · show (syncFinalStats o w).skipped = (syncFinalStats {o with dryRun := false} w).skipped
      unfold syncFinalStats
      show (syncPlan o w).skipped.length = (syncPlan {o with dryRun := false} w).skipped.length
      simp [syncPlan_dryRun]
    · show (syncExec o w).1 = syncDestFiles w
      unfold syncExec
      rw [execDeletePhase_dry_index _ _ _ hdry, execFilePhase_dry_index _ _ _ _ _ hdry,
        execFilePhase_dry_index _ _ _ _ _ hdry, execDirPhase_dry_index _ _ _ hdry]
  · unfold synchronize
    rw [if_pos (by simpa using hs), if_pos (by simpa using hs)]
    exact ⟨⟨rfl, rfl, rfl, rfl⟩, rfl⟩

/-- Witness for C3: the dry run of scenario A reports one copy and
leaves the destination tree untouched. -/
theorem dry_run_counts_and_no_mutation_witness :
    (synchronize {exOneWay with dryRun := true}
        (exWorld [("a.txt", exFileA)] [])).2.1.copied =
      (synchronize {{exOneWay with dryRun := true} with dryRun := false}
        (exWorld [("a.txt", exFileA)] [])).2.1.copied ∧
    (synchronize {exOneWay with dryRun := true}
        (exWorld [("a.txt", exFileA)] [])).2.2 =
      syncDestFiles (exWorld [("a.txt", exFileA)] []) :=
  ⟨(dry_run_counts_and_no_mutation {exOneWay with dryRun := true}
      (exWorld [("a.txt", exFileA)] []) rfl rfl rfl).1.1,
   (dry_run_counts_and_no_mutation {exOneWay with dryRun := true}
      (exWorld [("a.txt", exFileA)] []) rfl rfl rfl).2⟩

/-! ## C8: scanner failure policy -/

/-- Counterexample to C8 as stated: in a local scan, a stat failure on
the first pending entry aborts the walk, so the second entry — which
did not fail — is also missing from the result; and the scan returns
only the entry list, no failure count. -/
theorem scan_partial_claim_counterexample :
    listFilesLocal exRawFail = [] ∧
    (⟨"b", some exFileA⟩ : RawEntry) ∈ exRawFail ∧
    ("b", exFileA) ∉ listFilesLocal exRawFail := by
  exact ⟨by decide, by decide, by decide⟩

/-- C8 (amended): a failure to read one sub-entry is logged and
contained, but not at the claimed granularity, and no failure count is
surfaced — the caller receives only the entry list.  In a local scan a
stat failure aborts the remainder of the walk, returning exactly the
entries collected before it; a remote scan returns the empty list for
every listing, because the directory test at line 406 names `stat`,
which in the remote branch is an unassigned local of `_list_files`, so
the first item of any listing raises NameError and the per-listing
handler returns `[]`. -/
theorem scan_failure_granularity (pre : List (String × FileInfo)) (q : String)
    (rest : List RawEntry) (items : List RTree) :
    listFilesLocal (pre.map (fun e => ⟨e.1, some e.2⟩) ++ ⟨q, none⟩ :: rest) = pre ∧
    listRemoteDir items = [] := by
  constructor
  · induction pre with
    | nil => rfl
    | cons e pre ih => simp [listFilesLocal, ih]
  · cases items <;> rfl

/-! ## C9: one-way idempotence -/

/-- Counterexample to C9 as stated: with backups enabled, the first run
updates `a` and backs the old destination copy up to `a.bak.7`,
overwriting the file of that same name it had just copied from the
source; the error-free second run therefore classifies `a.bak.7` as
Update again. -/
theorem idempotence_claim_counterexample :
    (synchronize exBakOpts (exWorld exBakSrc exBakDst)).2.1.errors = 0 ∧
    (synchronize exBakOpts
        {exWorld exBakSrc exBakDst with
          dst := (synchronize exBakOpts (exWorld exBakSrc exBakDst)).2.2,
          destExists := true}).2.1.updated = 1 := by
  exact ⟨by decide, by decide⟩

theorem lookupKey_append (a b : EntryIndex) (k : String) :
    lookupKey (a ++ b) k =
      (match lookupKey a k with
       | some v => some v
       | none => lookupKey b k) := by
  induction a with
  | nil => rfl
  | cons e a ih => by_cases h : e.1 = k <;> simp [lookupKey, h, ih]

theorem lookupKey_setKey_self (idx : EntryIndex) (k : String) (v : FileInfo) :
    lookupKey (idx.map (fun e => if e.1 = k then (k, v) else e)) k =
      (match lookupKey idx k with
       | some _ => some v
       | none => none) := by
  induction idx with
  | nil => rfl
  | cons e idx ih => by_cases he : e.1 = k <;> simp [lookupKey, he, ih]

theorem lookupKey_setKey_ne (idx : EntryIndex) (k : String) (v : FileInfo)
    (k' : String) (h : k' ≠ k) :
    lookupKey (idx.map (fun e => if e.1 = k then (k, v) else e)) k' =
      lookupKey idx k' := by
  induction idx with
  | nil => rfl
  | cons e idx ih =>
    by_cases he : e.1 = k
    · simp [lookupKey, he, Ne.symm h, ih]
    · simp [lookupKey, he, ih]

theorem lookupKey_insertEntry_self (idx : EntryIndex) (k : String) (v : FileInfo) :
    lookupKey (insertEntry idx k v) k = some v := by
  unfold insertEntry
  split_ifs with h
  · rw [lookupKey_setKey_self]
    cases hl : lookupKey idx k with
    | some _ => rfl
    | none => rw [hl] at h; simp at h
  · rw [lookupKey_append]
    cases hl : lookupKey idx k with
    | some _ => rw [hl] at h; simp at h
    | none => simp [lookupKey]

theorem lookupKey_insertEntry_ne (idx : EntryIndex) (k : String) (v : FileInfo)
    (k' : String) (h : k' ≠ k) :
    lookupKey (insertEntry idx k v) k' = lookupKey idx k' := by
  unfold insertEntry
  split_ifs with hs
  · exact lookupKey_setKey_ne idx k v k' h
  · rw [lookupKey_append]
    cases hl : lookupKey idx k' with
    | some _ => rfl
    | none => simp [lookupKey, Ne.symm h]

theorem lookupKey_insertEntry_isSome (idx : EntryIndex) (k : String) (v : FileInfo)
    (k' : String) (h : (lookupKey idx k').isSome) :
    (lookupKey (insertEntry idx k v) k').isSome := by
  by_cases hk : k' = k
  · subst hk; rw [lookupKey_insertEntry_self]; rfl
  · rw [lookupKey_insertEntry_ne idx k v k' hk]; exact h

theorem lookupKey_ensureParentDir_pres (now : Nat) (dst : EntryIndex) (rel k : String)
    (v : FileInfo) (hv : lookupKey dst k = some v) :
    lookupKey (ensureParentDir now dst rel) k = some v := by
  unfold ensureParentDir
  split_ifs with hc
  · by_cases hk : k = dirname rel
    · subst hk; rw [hv] at hc; exact absurd hc.2 (by simp)
    · rw [lookupKey_insertEntry_ne _ _ _ _ hk]; exact hv
  · exact hv

theorem lookupKey_ensureParentDir_isSome (now : Nat) (dst : EntryIndex)
    (rel k : String) (h : (lookupKey dst k).isSome) :
    (lookupKey (ensureParentDir now dst rel) k).isSome := by
  unfold ensureParentDir
  split_ifs
  · exact lookupKey_insertEntry_isSome _ _ _ _ h
  · exact h

theorem lookupKey_backupIfNeeded_pres (o : SyncOptions) (now : Nat)
    (dst : EntryIndex) (rel k : String) (v : FileInfo)
    (hv : lookupKey dst k = some v) (hbak : k ≠ bakKey rel now) :
    lookupKey (backupIfNeeded o now dst rel) k = some v := by
  unfold backupIfNeeded
  cases h : lookupKey dst rel with
  | none => exact hv
  | some old =>
    split_ifs
    · rw [lookupKey_insertEntry_ne _ _ _ _ hbak]; exact hv
    · exact hv

theorem lookupKey_backupIfNeeded_isSome (o : SyncOptions) (now : Nat)
    (dst : EntryIndex) (rel k : String) (h : (lookupKey dst k).isSome) :
    (lookupKey (backupIfNeeded o now dst rel) k).isSome := by
  unfold backupIfNeeded
  cases hl : lookupKey dst rel with
  | none => exact h
  | some old =>
    split_ifs
    · exact lookupKey_insertEntry_isSome _ _ _ _ h
    · exact h

theorem lookupKey_copyFileState_self (o : SyncOptions) (now : Nat)
    (S D : EntryIndex) (rel : String) (sf : FileInfo)
    (h : lookupKey S rel = some sf) :
    lookupKey (copyFileState o now S D rel) rel = some (installedInfo o now sf) := by
  unfold copyFileState
  rw [h]
  exact lookupKey_insertEntry_self _ _ _

theorem lookupKey_copyFileState_pres (o : SyncOptions) (now : Nat)
    (S D : EntryIndex) (rel k : String) (v : FileInfo)
    (hv : lookupKey D k = some v) (hk : k ≠ rel) (hbak : k ≠ bakKey rel now) :
    lookupKey (copyFileState o now S D rel) k = some v := by
  have h2 : lookupKey (backupIfNeeded o now (ensureParentDir now D rel) rel) k =
      some v :=
    lookupKey_backupIfNeeded_pres o now _ rel k v
      (lookupKey_ensureParentDir_pres now D rel k v hv) hbak
  unfold copyFileState
  cases hS : lookupKey S rel with
  | none => exact h2
  | some sf => rw [lookupKey_insertEntry_ne _ _ _ _ hk]; exact h2

theorem lookupKey_copyFileState_isSome (o : SyncOptions) (now : Nat)
    (S D : EntryIndex) (rel k : String) (h : (lookupKey D k).isSome) :
    (lookupKey (copyFileState o now S D rel) k).isSome := by
  have h2 : (lookupKey (backupIfNeeded o now (ensureParentDir now D rel) rel) k).isSome :=
    lookupKey_backupIfNeeded_isSome o now _ rel k
      (lookupKey_ensureParentDir_isSome now D rel k h)
  unfold copyFileState
  cases hS : lookupKey S rel with
  | none => exact h2
  | some sf => exact lookupKey_insertEntry_isSome _ _ _ _ h2

theorem compareFiles_self (o : SyncOptions) (sf : FileInfo) :
    compareFiles o sf (some sf) sf.checksum sf.checksum = FileAction.skip := by
  simp only [compareFiles]
  have h2 : ¬(sf.mtime + 2 < sf.mtime) := by omega
  simp [h2]

theorem compareFiles_installed (o : SyncOptions) (now : Nat) (sf : FileInfo)
    (hmt : o.richProgress = true → sf.mtime ≤ (now : Int) + 2) :
    compareFiles o sf (some (installedInfo o now sf)) sf.checksum
      (installedInfo o now sf).checksum = FileAction.skip := by
  by_cases hr : o.richProgress = true
  · have hle := hmt hr
    simp only [installedInfo, hr, if_true]
    simp only [compareFiles]
    have h2 : ¬((now : Int) + 2 < sf.mtime) := by omega
    simp [h2]
  · have hr2 : o.richProgress = false := by simpa using hr
    simp only [installedInfo, hr2, Bool.false_eq_true, if_false]
    exact compareFiles_self o sf

theorem compareFiles_cases (o : SyncOptions) (sf : FileInfo) (df : Option FileInfo)
    (a b : String) :
    compareFiles o sf df a b = .copy ∨ compareFiles o sf df a b = .update ∨
      compareFiles o sf df a b = .skip := by
  cases df with
  | none => exact Or.inl rfl
  | some d =>
    simp only [compareFiles]
    split_ifs <;> first | exact Or.inr (Or.inl rfl) | exact Or.inr (Or.inr rfl)

theorem isBakShaped_bakKey (k : String) (now : Nat) :
    isBakShaped (bakKey k now) now = true := by
  unfold isBakShaped bakKey
  have : (k ++ ".bak." ++ toString now).data =
      k.data ++ (".bak." ++ toString now).data := by
    rw [String.data_append, String.data_append, String.data_append, List.append_assoc]
  rw [this]
  simp [List.isSuffixOf]

theorem execDirStep_errors_le (o : SyncOptions) (now : Nat) (orc : Oracle)
    (st : EntryIndex × Stats) (it : String × Bool) :
    st.2.errors ≤ (execDirStep o now orc st it).2.errors := by
  unfold execDirStep
  split_ifs <;> simp

theorem execDirPhase_errors_mono (o : SyncOptions) (now : Nat) (orc : Oracle) :
    ∀ items st, st.2.errors ≤ (execDirPhase o now orc st items).2.errors := by
  intro items
  induction items with
  | nil => intro st; exact le_refl _
  | cons it items ih =>
    intro st
    rw [show execDirPhase o now orc st (it :: items) =
          execDirPhase o now orc (execDirStep o now orc st it) items from rfl]
    exact le_trans (execDirStep_errors_le o now orc st it) (ih _)

theorem execFileStep_errors_le (o : SyncOptions) (S : EntryIndex) (now : Nat)
    (orc : Oracle) (isUp : Bool) (st : EntryIndex × Stats) (it : String × Bool) :
    st.2.errors ≤ (execFileStep o S now orc isUp st it).2.errors := by
  unfold execFileStep bumpFile
  split_ifs <;> simp

theorem execFilePhase_errors_mono (o : SyncOptions) (S : EntryIndex) (now : Nat)
    (orc : Oracle) (isUp : Bool) :
    ∀ items st, st.2.errors ≤ (execFilePhase o S now orc isUp st items).2.errors := by
  intro items
  induction items with
  | nil => intro st; exact le_refl _
  | cons it items ih =>
    intro st
    rw [show execFilePhase o S now orc isUp st (it :: items) =
          execFilePhase o S now orc isUp
            (execFileStep o S now orc isUp st it) items from rfl]
    exact le_trans (execFileStep_errors_le o S now orc isUp st it) (ih _)

theorem execDirPhase_pres (o : SyncOptions) (now : Nat) (orc : Oracle)
    (rel : String) (v : FileInfo) :
    ∀ items st, (∀ e ∈ items, e.1 ≠ rel) → lookupKey st.1 rel = some v →
      lookupKey (execDirPhase o now orc st items).1 rel = some v := by
  intro items
  induction items with
  | nil => intro st _ hv; exact hv
  | cons it items ih =>
    intro st hne hv
    rw [show execDirPhase o now orc st (it :: items) =
          execDirPhase o now orc (execDirStep o now orc st it) items from rfl]
    apply ih _ (fun e he => hne e (List.mem_cons_of_mem _ he))
    unfold execDirStep
    split_ifs <;>
      first
        | exact hv
        | (rw [lookupKey_insertEntry_ne _ _ _ _
            (Ne.symm (hne it (List.mem_cons_self _ _)))]; exact hv)

theorem execFilePhase_pres (o : SyncOptions) (S : EntryIndex) (now : Nat)
    (orc : Oracle) (isUp : Bool) (rel : String) (v : FileInfo)
    (hbak : ∀ x, rel ≠ bakKey x now) :
    ∀ items st, (∀ e ∈ items, e.1 ≠ rel) → lookupKey st.1 rel = some v →
      lookupKey (execFilePhase o S now orc isUp st items).1 rel = some v := by
  intro items
  induction items with
  | nil => intro st _ hv; exact hv
  | cons it items ih =>
    intro st hne hv
    rw [show execFilePhase o S now orc isUp st (it :: items) =
          execFilePhase o S now orc isUp
            (execFileStep o S now orc isUp st it) items from rfl]
    apply ih _ (fun e he => hne e (List.mem_cons_of_mem _ he))
    unfold execFileStep
    split_ifs <;>
      first
        | exact hv
        | exact lookupKey_copyFileState_pres o now S st.1 it.1 rel v hv
            (Ne.symm (hne it (List.mem_cons_self _ _))) (hbak it.1)

theorem execDirPhase_isSome_mono (o : SyncOptions) (now : Nat) (orc : Oracle)
    (rel : String) :
    ∀ items st, (lookupKey st.1 rel).isSome →
      (lookupKey (execDirPhase o now orc st items).1 rel).isSome := by
  intro items
  induction items with
  | nil => intro st h; exact h
  | cons it items ih =>
    intro st h
    rw [show execDirPhase o now orc st (it :: items) =
          execDirPhase o now orc (execDirStep o now orc st it) items from rfl]
    apply ih
    unfold execDirStep
    split_ifs <;> first | exact h | exact lookupKey_insertEntry_isSome _ _ _ _ h

theorem execFilePhase_isSome_mono (o : SyncOptions) (S : EntryIndex) (now : Nat)
    (orc : Oracle) (isUp : Bool) (rel : String) :
    ∀ items st, (lookupKey st.1 rel).isSome →
      (lookupKey (execFilePhase o S now orc isUp st items).1 rel).isSome := by
  intro items
  induction items with
  | nil => intro st h; exact h
  | cons it items ih =>
    intro st h
    rw [show execFilePhase o S now orc isUp st (it :: items) =
          execFilePhase o S now orc isUp
            (execFileStep o S now orc isUp st it) items from rfl]
    apply ih
    unfold execFileStep
    split_ifs <;>
      first | exact h | exact lookupKey_copyFileState_isSome o now S st.1 it.1 rel h

theorem execDirPhase_write (o : SyncOptions) (now : Nat) (orc : Oracle)
    (hdry : o.dryRun = false) (rel : String) :
    ∀ items st, (rel, true) ∈ items →
      (execDirPhase o now orc st items).2.errors = st.2.errors →
      (lookupKey (execDirPhase o now orc st items).1 rel).isSome := by
  intro items
  induction items with
  | nil => intro st hm; exact absurd hm (List.not_mem_nil _)
  | cons it items ih =>
    intro st hm herr
    rw [show execDirPhase o now orc st (it :: items) =
          execDirPhase o now orc (execDirStep o now orc st it) items from rfl] at herr ⊢
    have hstep : (execDirStep o now orc st it).2.errors = st.2.errors := by
      have h1 := execDirStep_errors_le o now orc st it
      have h2 := execDirPhase_errors_mono o now orc items (execDirStep o now orc st it)
      omega
    rcases List.mem_cons.mp hm with heq | hmem
    · subst heq
      by_cases hok : orc.mkdirOk rel = true
      · apply execDirPhase_isSome_mono
        unfold execDirStep
        simp [hdry, hok, lookupKey_insertEntry_self]
      · exfalso
        unfold execDirStep at hstep
        simp [hdry, hok] at hstep
    · exact ih _ hmem (herr.trans hstep.symm)

theorem execFilePhase_write (o : SyncOptions) (S : EntryIndex) (now : Nat)
    (orc : Oracle) (isUp : Bool) (hdry : o.dryRun = false) (rel : String)
    (sf : FileInfo) (hS : lookupKey S rel = some sf)
    (hbak : ∀ x, rel ≠ bakKey x now) :
    ∀ (l₁ l₂ : List (String × Bool)) (st : EntryIndex × Stats),
      (∀ e ∈ l₂, e.1 ≠ rel) →
      (execFilePhase o S now orc isUp st (l₁ ++ (rel, false) :: l₂)).2.errors =
        st.2.errors →
      lookupKey (execFilePhase o S now orc isUp st (l₁ ++ (rel, false) :: l₂)).1 rel =
        some (installedInfo o now sf) := by
  intro l₁
  induction l₁ with
  | nil =>
    intro l₂ st hne herr
    simp only [List.nil_append] at herr ⊢
    rw [show execFilePhase o S now orc isUp st ((rel, false) :: l₂) =
          execFilePhase o S now orc isUp
            (execFileStep o S now orc isUp st (rel, false)) l₂ from rfl] at herr ⊢
    have hstep :
        (execFileStep o S now orc isUp st (rel, false)).2.errors = st.2.errors := by
      have h1 := execFileStep_errors_le o S now orc isUp st (rel, false)
      have h2 := execFilePhase_errors_mono o S now orc isUp l₂
        (execFileStep o S now orc isUp st (rel, false))
      omega
    by_cases hok : orc.copyOk rel = true
    · apply execFilePhase_pres o S now orc isUp rel (installedInfo o now sf) hbak l₂ _ hne
      unfold execFileStep
      simp only [hdry, hok, Bool.false_eq_true, if_false, if_true]
      exact lookupKey_copyFileState_self o now S st.1 rel sf hS
    · exfalso
      unfold execFileStep at hstep
      simp [hdry, hok] at hstep
  | cons x l₁ ih =>
    intro l₂ st hne herr
    simp only [List.cons_append] at herr ⊢
    rw [show execFilePhase o S now orc isUp st (x :: (l₁ ++ (rel, false) :: l₂)) =
          execFilePhase o S now orc isUp
            (execFileStep o S now orc isUp st x) (l₁ ++ (rel, false) :: l₂)
        from rfl] at herr ⊢
    have hstep : (execFileStep o S now orc isUp st x).2.errors = st.2.errors := by
      have h1 := execFileStep_errors_le o S now orc isUp st x
      have h2 := execFilePhase_errors_mono o S now orc isUp (l₁ ++ (rel, false) :: l₂)
        (execFileStep o S now orc isUp st x)
      omega
    exact ih l₂ _ hne (herr.trans hstep.symm)

theorem copySel_some (o : SyncOptions) (D : EntryIndex) (e : String × FileInfo)
    (p : String × Bool) (h : copySel o D e = some p) : p.1 = e.1 := by
  unfold copySel at h
  split at h <;> split_ifs at h <;> simp_all <;> exact h ▸ rfl

theorem updateSel_some (o : SyncOptions) (D : EntryIndex) (e : String × FileInfo)
    (p : String × Bool) (h : updateSel o D e = some p) : p.1 = e.1 := by
  unfold updateSel at h
  split at h <;> split_ifs at h <;> simp_all <;> exact h ▸ rfl

theorem planStep_nilConflicts (o : SyncOptions) (D : EntryIndex) (acc : Plan)
    (e : String × FileInfo) :
    (planStep o D [] acc e).toCopy = acc.toCopy ++ (copySel o D e).toList ∧
    (planStep o D [] acc e).toUpdate = acc.toUpdate ++ (updateSel o D e).toList := by
  cases hl : lookupKey D e.1 with
  | none =>
    by_cases hd : e.2.isDir = true
    · simp [planStep, copySel, updateSel, hl, hd, routePlan]
    · rcases compareFiles_cases o e.2 none e.2.checksum (checksumOf none)
        with hc | hc | hc <;>
        simp [planStep, copySel, updateSel, hl, hd, hc, routePlan]
  | some d =>
    by_cases hd : e.2.isDir = true
    · simp [planStep, copySel, updateSel, hl, hd]
    · rcases compareFiles_cases o e.2 (some d) e.2.checksum d.checksum
        with hc | hc | hc <;>
        simp [planStep, copySel, updateSel, hl, hd, hc, routePlan]

theorem buildPlanAux_nilConflicts (o : SyncOptions) (D : EntryIndex) :
    ∀ (S : EntryIndex) (acc : Plan),
      (buildPlanAux o D [] acc S).toCopy = acc.toCopy ++ S.filterMap (copySel o D) ∧
      (buildPlanAux o D [] acc S).toUpdate =
        acc.toUpdate ++ S.filterMap (updateSel o D) := by
  intro S
  induction S with
  | nil => intro acc; simp [buildPlanAux]
  | cons e S ih =>
    intro acc
    rw [show buildPlanAux o D [] acc (e :: S) =
          buildPlanAux o D [] (planStep o D [] acc e) S from rfl]
    obtain ⟨h1, h2⟩ := ih (planStep o D [] acc e)
    obtain ⟨g1, g2⟩ := planStep_nilConflicts o D acc e
    constructor
    · rw [h1, g1, List.filterMap_cons]
      cases hc : copySel o D e <;> simp
    · rw [h2, g2, List.filterMap_cons]
      cases hc : updateSel o D e <;> simp

theorem filterMap_sel_fst_sublist (sel : String × FileInfo → Option (String × Bool))
    (hsel : ∀ e p, sel e = some p → p.1 = e.1) :
    ∀ S : EntryIndex, ((S.filterMap sel).map Prod.fst).Sublist (S.map Prod.fst) := by
  intro S
  induction S with
  | nil => simp
  | cons e S ih =>
    rw [List.filterMap_cons]
    cases h : sel e with
    | none => simp only [List.map_cons]; exact ih.cons _
    | some p =>
      simp only [List.map_cons]
      rw [hsel e p h]
      exact ih.cons₂ _

theorem lookupKey_of_mem_nodup (idx : EntryIndex)
    (h : (idx.map Prod.fst).Nodup) (rel : String) (sf : FileInfo)
    (hm : (rel, sf) ∈ idx) : lookupKey idx rel = some sf := by
  induction idx with
  | nil => exact absurd hm (List.not_mem_nil _)
  | cons e idx ih =>
    have hh : (e.1 :: idx.map Prod.fst).Nodup := by simpa using h
    rcases List.mem_cons.mp hm with heq | hmem
    · rw [← heq]; simp [lookupKey]
    · have hk : rel ∈ idx.map Prod.fst := List.mem_map.mpr ⟨(rel, sf), hmem, rfl⟩
      have hne : e.1 ≠ rel := fun hEq => (List.nodup_cons.mp hh).1 (hEq ▸ hk)
      simp only [lookupKey, if_neg hne]
      exact ih (List.nodup_cons.mp hh).2 hmem

theorem mem_key_unique (idx : EntryIndex) (h : (idx.map Prod.fst).Nodup)
    (rel : String) (a b : FileInfo) (ha : (rel, a) ∈ idx) (hb : (rel, b) ∈ idx) :
    a = b := by
  have h1 := lookupKey_of_mem_nodup idx h rel a ha
  have h2 := lookupKey_of_mem_nodup idx h rel b hb
  rw [h1] at h2
  exact Option.some.inj h2

theorem mem_split_keys (items : List (String × Bool)) (rel : String) (b : Bool)
    (hm : (rel, b) ∈ items) (hn : (items.map Prod.fst).Nodup) :
    ∃ l₁ l₂, items = l₁ ++ (rel, b) :: l₂ ∧ ∀ e ∈ l₂, e.1 ≠ rel := by
  obtain ⟨l₁, l₂, rfl⟩ := List.append_of_mem hm
  refine ⟨l₁, l₂, rfl, fun e he hEq => ?_⟩
  have hh : (l₁.map Prod.fst ++ rel :: l₂.map Prod.fst).Nodup := by simpa using hn
  have h2 : (rel :: l₂.map Prod.fst).Nodup := hh.sublist (List.sublist_append_right _ _)
  exact (List.nodup_cons.mp h2).1 (hEq ▸ List.mem_map.mpr ⟨e, he, rfl⟩)

theorem exec_establishes_skip (o : SyncOptions) (now : Nat) (orc : Oracle)
    (S D : EntryIndex) (P : Plan) (st0 : EntryIndex × Stats)
    (hdry : o.dryRun = false)
    (hSnodup : (S.map Prod.fst).Nodup)
    (hPc : P.toCopy = S.filterMap (copySel o D))
    (hPu : P.toUpdate = S.filterMap (updateSel o D))
    (hbak : ∀ p ∈ S.map Prod.fst, isBakShaped p now = false)
    (hmt : o.richProgress = true → ∀ e ∈ S, e.2.mtime ≤ (now : Int) + 2)
    (hst0 : st0.1 = D)
    (herrA : (execDirPhase o now orc st0 P.toCopy).2.errors = st0.2.errors)
    (herrB : (execFilePhase o S now orc false
        (execDirPhase o now orc st0 P.toCopy) P.toCopy).2.errors =
      (execDirPhase o now orc st0 P.toCopy).2.errors)
    (herrC : (execFilePhase o S now orc true
        (execFilePhase o S now orc false
          (execDirPhase o now orc st0 P.toCopy) P.toCopy) P.toUpdate).2.errors =
      (execFilePhase o S now orc false
        (execDirPhase o now orc st0 P.toCopy) P.toCopy).2.errors) :
    ∀ rel sf, (rel, sf) ∈ S →
      (sf.isDir = true →
        (lookupKey (execFilePhase o S now orc true
          (execFilePhase o S now orc false
            (execDirPhase o now orc st0 P.toCopy) P.toCopy) P.toUpdate).1 rel).isSome) ∧
      (sf.isDir = false → ∃ d,
        lookupKey (execFilePhase o S now orc true
          (execFilePhase o S now orc false
            (execDirPhase o now orc st0 P.toCopy) P.toCopy) P.toUpdate).1 rel = some d ∧
        compareFiles o sf (some d) sf.checksum d.checksum = FileAction.skip) := by
  intro rel sf hmem
  have hSlk : lookupKey S rel = some sf := lookupKey_of_mem_nodup _ hSnodup rel sf hmem
  have hrelbak : ∀ x, rel ≠ bakKey x now := by
    intro x hEq
    have h1 := hbak rel (List.mem_map.mpr ⟨(rel, sf), hmem, rfl⟩)
    rw [hEq, isBakShaped_bakKey] at h1
    simp at h1
  have hCkeys : (P.toCopy.map Prod.fst).Nodup := by
    rw [hPc]
    exact hSnodup.sublist (filterMap_sel_fst_sublist _ (copySel_some o D) S)
  have hUkeys : (P.toUpdate.map Prod.fst).Nodup := by
    rw [hPu]
    exact hSnodup.sublist (filterMap_sel_fst_sublist _ (updateSel_some o D) S)
  have hCkey : ∀ b, (rel, b) ∈ P.toCopy → copySel o D (rel, sf) = some (rel, b) := by
    intro b hb
    rw [hPc] at hb
    obtain ⟨⟨k, v⟩, heS, hsel⟩ := List.mem_filterMap.mp hb
    have hk : k = rel := (copySel_some o D (k, v) (rel, b) hsel).symm
    subst hk
    have hv : v = sf := mem_key_unique S hSnodup k v sf heS hmem
    subst hv
    exact hsel
  have hUkey : ∀ b, (rel, b) ∈ P.toUpdate → updateSel o D (rel, sf) = some (rel, b) := by
    intro b hb
    rw [hPu] at hb
    obtain ⟨⟨k, v⟩, heS, hsel⟩ := List.mem_filterMap.mp hb
    have hk : k = rel := (updateSel_some o D (k, v) (rel, b) hsel).symm
    subst hk
    have hv : v = sf := mem_key_unique S hSnodup k v sf heS hmem
    subst hv
    exact hsel
  have hCmem : ∀ b, copySel o D (rel, sf) = some (rel, b) → (rel, b) ∈ P.toCopy := by
    intro b hsel
    rw [hPc]
    exact List.mem_filterMap.mpr ⟨(rel, sf), hmem, hsel⟩
  have hUmem : ∀ b, updateSel o D (rel, sf) = some (rel, b) → (rel, b) ∈ P.toUpdate := by
    intro b hsel
    rw [hPu]
    exact List.mem_filterMap.mpr ⟨(rel, sf), hmem, hsel⟩
  refine ⟨fun hdir => ?_, fun hfile => ?_⟩
  · cases hDlk : lookupKey D rel with
    | some d =>
      apply execFilePhase_isSome_mono
      apply execFilePhase_isSome_mono
      apply execDirPhase_isSome_mono
      rw [hst0, hDlk]
      rfl
    | none =>
      have hmemC : (rel, true) ∈ P.toCopy := hCmem true (by simp [copySel, hDlk, hdir])
      apply execFilePhase_isSome_mono
      apply execFilePhase_isSome_mono
      exact execDirPhase_write o now orc hdry rel P.toCopy st0 hmemC herrA
  · cases hDlk : lookupKey D rel with
    | none =>
      have hmemC : (rel, false) ∈ P.toCopy :=
        hCmem false (by simp [copySel, compareFiles, hDlk, hfile])
      obtain ⟨l₁, l₂, hsplit, hl₂⟩ := mem_split_keys _ rel false hmemC hCkeys
      have hnotU : ∀ e ∈ P.toUpdate, e.1 ≠ rel := by
        intro e he hEq
        have hUsel := hUkey e.2 (by rw [← hEq]; simpa using he)
        simp [updateSel, compareFiles, hDlk, hfile] at hUsel
      refine ⟨installedInfo o now sf, ?_,
        compareFiles_installed o now sf (fun hr => hmt hr (rel, sf) hmem)⟩
      apply execFilePhase_pres o S now orc true rel (installedInfo o now sf) hrelbak
        P.toUpdate _ hnotU
      rw [hsplit]
      refine execFilePhase_write o S now orc false hdry rel sf hSlk hrelbak l₁ l₂ _ hl₂ ?_
      rw [← hsplit]
      exact herrB
    | some d =>
      rcases compareFiles_cases o sf (some d) sf.checksum d.checksum with hc | hc | hc
      · have hmemC : (rel, false) ∈ P.toCopy :=
          hCmem false (by simp [copySel, hDlk, hfile, hc])
        obtain ⟨l₁, l₂, hsplit, hl₂⟩ := mem_split_keys _ rel false hmemC hCkeys
        have hnotU : ∀ e ∈ P.toUpdate, e.1 ≠ rel := by
          intro e he hEq
          have hUsel := hUkey e.2 (by rw [← hEq]; simpa using he)
          simp [updateSel, hDlk, hfile, hc] at hUsel
        refine ⟨installedInfo o now sf, ?_,
          compareFiles_installed o now sf (fun hr => hmt hr (rel, sf) hmem)⟩
        apply execFilePhase_pres o S now orc true rel (installedInfo o now sf) hrelbak
          P.toUpdate _ hnotU
        rw [hsplit]
        refine execFilePhase_write o S now orc false hdry rel sf hSlk hrelbak l₁ l₂ _ hl₂ ?_
        rw [← hsplit]
        exact herrB
      · have hmemU : (rel, false) ∈ P.toUpdate :=
          hUmem false (by simp [updateSel, hDlk, hfile, hc])
        obtain ⟨l₁, l₂, hsplit, hl₂⟩ := mem_split_keys _ rel false hmemU hUkeys
        refine ⟨installedInfo o now sf, ?_,
          compareFiles_installed o now sf (fun hr => hmt hr (rel, sf) hmem)⟩
        rw [hsplit]
        refine execFilePhase_write o S now orc true hdry rel sf hSlk hrelbak l₁ l₂ _ hl₂ ?_
        rw [← hsplit]
        exact herrC
      · have hnotC : ∀ e ∈ P.toCopy, e.1 ≠ rel := by
          intro e he hEq
          have hCsel := hCkey e.2 (by rw [← hEq]; simpa using he)
          simp [copySel, hDlk, hfile, hc] at hCsel
        have hnotU : ∀ e ∈ P.toUpdate, e.1 ≠ rel := by
          intro e he hEq
          have hUsel := hUkey e.2 (by rw [← hEq]; simpa using he)
          simp [updateSel, hDlk, hfile, hc] at hUsel
        refine ⟨d, ?_, hc⟩
        apply execFilePhase_pres o S now orc true rel d hrelbak P.toUpdate _ hnotU
        apply execFilePhase_pres o S now orc false rel d hrelbak P.toCopy _ hnotC
        apply execDirPhase_pres o now orc rel d P.toCopy _ hnotC
        rw [hst0]
        exact hDlk

/-- C9 (amended): running `synchronize()` twice in one-way mode over the
same trees — with unique source keys, no source change between the
(real) runs, the first run completing without errors, no source
relative path shaped like a backup name `* + ".bak." + timestamp` of
the run, and, when the progress-bar transfer branch is active (it does
not preserve the source mtime), no source mtime exceeding the run's
timestamp by more than the comparator's 2-second slack — produces zero
Copy, Update and Delete actions on the second run. -/
theorem oneway_second_run_trivial (o : SyncOptions) (w : World)
    (hnodup : (w.src.map Prod.fst).Nodup)
    (hsrc : w.sourceExists = true)
    (hdry : o.dryRun = false)
    (hmode : o.syncMode = SyncMode.oneWay)
    (herr : (synchronize o w).2.1.errors = 0)
    (hbak : ∀ p ∈ w.src.map Prod.fst, isBakShaped p w.now = false)
    (hmt : o.richProgress = true → ∀ e ∈ w.src, e.2.mtime ≤ (w.now : Int) + 2) :
    (synchronize o
        {w with dst := (synchronize o w).2.2, destExists := true}).2.1.copied = 0 ∧
    (synchronize o
        {w with dst := (synchronize o w).2.2, destExists := true}).2.1.updated = 0 ∧
    (synchronize o
        {w with dst := (synchronize o w).2.2, destExists := true}).2.1.deleted = 0 := by
  have hconf : ∀ u : World, syncConflicts o u = [] := by
    intro u
    simp [syncConflicts, detectConflicts, hmode]
  have hdels : ∀ u : World, syncDeletes o u = [] := by
    intro u
    simp [syncDeletes, mirrorDeletes, hmode]
  by_cases hfail : ¬w.destExists ∧ o.syncMode ≠ SyncMode.mirror ∧ ¬o.dryRun ∧
      ¬w.createDestOk
  · exfalso
    unfold synchronize at herr
    rw [if_neg (by simp [hsrc]), if_pos hfail] at herr
    simp at herr
  have e1 : synchronize o w =
      ((syncFinalStats o w).errors == 0, syncFinalStats o w, (syncExec o w).1) := by
    unfold synchronize
    rw [if_neg (by simp [hsrc]), if_neg hfail]
  set w2 : World := {w with dst := (synchronize o w).2.2, destExists := true} with hw2d
  set SF := syncSourceFiles o w with hSFd
  set DF := syncDestFiles w with hDFd
  set P := syncPlan o w with hPd
  set st0 : EntryIndex × Stats := (DF, {conflicts := P.conflictCount}) with hst0d
  set stA := execDirPhase o w.now w.oracle st0 P.toCopy with hAd
  set stB := execFilePhase o SF w.now w.oracle false stA P.toCopy with hBd
  set stC := execFilePhase o SF w.now w.oracle true stB P.toUpdate with hCd
  have hexec : syncExec o w = stC := by
    unfold syncExec
    rw [hdels]
    rw [← hSFd, ← hDFd, ← hPd, ← hst0d, ← hAd, ← hBd, ← hCd]
    rfl
  have hC0 : stC.2.errors = 0 := by
    rw [← hexec]
    rw [e1] at herr
    exact herr
  have hmA := execDirPhase_errors_mono o w.now w.oracle P.toCopy st0
  have hmB := execFilePhase_errors_mono o SF w.now w.oracle false P.toCopy stA
  have hmC := execFilePhase_errors_mono o SF w.now w.oracle true P.toUpdate stB
  rw [← hAd] at hmA
  rw [← hBd] at hmB
  rw [← hCd] at hmC
  have hz : st0.2.errors = 0 := rfl
  have herrA : stA.2.errors = st0.2.errors := by omega
  have herrB : stB.2.errors = stA.2.errors := by omega
  have herrC : stC.2.errors = stB.2.errors := by omega
  have hSFnodup : (SF.map Prod.fst).Nodup := by
    rw [hSFd]
    unfold syncSourceFiles
    exact hnodup.sublist ((List.filter_sublist _).map _)
  have hPc : P.toCopy = SF.filterMap (copySel o DF) := by
    rw [hPd, hSFd, hDFd]
    unfold syncPlan buildPlan
    rw [hconf]
    rw [(buildPlanAux_nilConflicts o (syncDestFiles w) (syncSourceFiles o w) {}).1]
    simp
  have hPu : P.toUpdate = SF.filterMap (updateSel o DF) := by
    rw [hPd, hSFd, hDFd]
    unfold syncPlan buildPlan
    rw [hconf]
    rw [(buildPlanAux_nilConflicts o (syncDestFiles w) (syncSourceFiles o w) {}).2]
    simp
  have hbakSF : ∀ p ∈ SF.map Prod.fst, isBakShaped p w.now = false := by
    intro p hp
    apply hbak
    rw [hSFd] at hp
    unfold syncSourceFiles at hp
    exact ((List.filter_sublist _).map Prod.fst).subset hp
  have hmtSF : o.richProgress = true → ∀ e ∈ SF, e.2.mtime ≤ (w.now : Int) + 2 := by
    intro hr e he
    apply hmt hr
    rw [hSFd] at he
    unfold syncSourceFiles at he
    exact (List.filter_sublist _).subset he
  have hmain := exec_establishes_skip o w.now w.oracle SF DF P st0 hdry hSFnodup
    hPc hPu hbakSF hmtSF (by rw [hst0d]) (by rw [← hAd]; exact herrA)
    (by rw [← hAd, ← hBd]; exact herrB) (by rw [← hAd, ← hBd, ← hCd]; exact herrC)
  rw [← hAd, ← hBd, ← hCd] at hmain
  have hDF2 : syncDestFiles w2 = stC.1 := by
    have h1 : syncDestFiles w2 = (synchronize o w).2.2 := by rw [hw2d]; rfl
    rw [h1, e1, hexec]
  have hSF2 : syncSourceFiles o w2 = SF := by
    rw [hSFd, hw2d]; rfl
  have hnone : ∀ e ∈ syncSourceFiles o w2, copySel o (syncDestFiles w2) e = none ∧
      updateSel o (syncDestFiles w2) e = none := by
    intro e he
    have he' : (e.1, e.2) ∈ SF := by rw [← hSF2]; simpa using he
    have hm := hmain e.1 e.2 he'
    cases hdir : e.2.isDir with
    | true =>
      have hs := hm.1 hdir
      constructor
      · unfold copySel
        rw [hDF2]
        cases hl : lookupKey stC.1 e.1 with
        | none => rw [hl] at hs; simp at hs
        | some d => simp [hdir]
      · unfold updateSel
        rw [hDF2]
        cases hl : lookupKey stC.1 e.1 with
        | none => rw [hl] at hs; simp at hs
        | some d => simp [hdir]
    | false =>
      obtain ⟨d, hld, hcmp⟩ := hm.2 hdir
      constructor
      · unfold copySel
        rw [hDF2, hld]
        simp [hdir, hcmp]
      · unfold updateSel
        rw [hDF2, hld]
        simp [hdir, hcmp]
  have hPc2 : (syncPlan o w2).toCopy = [] := by
    unfold syncPlan buildPlan
    rw [hconf]
    rw [(buildPlanAux_nilConflicts o (syncDestFiles w2) (syncSourceFiles o w2) {}).1]
    simp only [List.filterMap_eq_nil_iff]
    have h := List.filterMap_eq_nil_iff.mpr (fun e he => (hnone e he).1)
    simp [h]
  have hPu2 : (syncPlan o w2).toUpdate = [] := by
    unfold syncPlan buildPlan
    rw [hconf]
    rw [(buildPlanAux_nilConflicts o (syncDestFiles w2) (syncSourceFiles o w2) {}).2]
    have h := List.filterMap_eq_nil_iff.mpr (fun e he => (hnone e he).2)
    simp [h]
  have e2 : synchronize o w2 =
      ((syncFinalStats o w2).errors == 0, syncFinalStats o w2, (syncExec o w2).1) := by
    unfold synchronize
    rw [if_neg (by rw [hw2d]; simp [hsrc]), if_neg (by rw [hw2d]; simp)]
  have hexec2 : syncExec o w2 =
      (syncDestFiles w2, {conflicts := (syncPlan o w2).conflictCount}) := by
    unfold syncExec
    rw [hdels, hPc2, hPu2]
    rfl
  refine ⟨?_, ?_, ?_⟩
  · rw [e2]
    show (syncExec o w2).2.copied = 0
    rw [hexec2]
  · rw [e2]
    show (syncExec o w2).2.updated = 0
    rw [hexec2]
  · rw [e2]
    show (syncExec o w2).2.deleted = 0
    rw [hexec2]

/-- Witness for C9 (amended): a fresh one-way copy followed by a second
run over the resulting trees produces no copy, update or delete. -/
theorem oneway_second_run_trivial_witness :
    (synchronize exOneWay
        {exWorld [("a.txt", exFileA)] [] with
          dst := (synchronize exOneWay (exWorld [("a.txt", exFileA)] [])).2.2,
          destExists := true}).2.1.copied = 0 ∧
    (synchronize exOneWay
        {exWorld [("a.txt", exFileA)] [] with
          dst := (synchronize exOneWay (exWorld [("a.txt", exFileA)] [])).2.2,
          destExists := true}).2.1.updated = 0 ∧
    (synchronize exOneWay
        {exWorld [("a.txt", exFileA)] [] with
          dst := (synchronize exOneWay (exWorld [("a.txt", exFileA)] [])).2.2,
          destExists := true}).2.1.deleted = 0 :=
  oneway_second_run_trivial exOneWay (exWorld [("a.txt", exFileA)] [])
    (by decide) rfl rfl rfl (by decide) (by decide) (by decide)

end ToolScripts
